import Mathlib

/-! # Genesis ROM Converter (`megarom.c`, `megarom.h`)

A shallow embedding of the core of the converter: the checksum calculator, the
format transcoder, the header parser and the publisher resolver.

Conventions of the embedding.

* A C buffer (`unsigned char *`, `const char *`, `char[N]`) is a `List Nat`; each
  element stands for one byte.  A store that truncates is written with `% 256`.
* A read or a write outside the extent of a buffer is undefined behaviour in C.
  The embedding makes it explicit: such an access yields `none`, and every
  function that touches a buffer returns an `Option`.
* The signature test of `open_file` runs before any size check, on a buffer that
  may hold fewer than 11 bytes.  A byte it reads past the end of the buffer is
  whatever lies there; it only enters the value of `file.format`, which is not
  consulted before the size checks.  The embedding takes such bytes from a
  parameter `beyond`.
* `size_t` and `unsigned long` hold lengths of buffers that exist in memory;
  they are natural numbers here.  `unsigned int` is 32 bits wide and the
  arithmetic on it is written with `% 2 ^ 32`.
* `malloc` returns a block whose contents are indeterminate.  The functions that
  allocate take the indeterminate contents as a parameter `junk`.
-/

namespace Megarom

/-! ## Constants of `megarom.h` -/

/-- The `enum format` value of a linear (binary) image. -/
def BIN_FILE : Nat := 0
/-- The `enum format` value of an interleaved (Super Magic Drive) image. -/
def SMD_FILE : Nat := 1

/-- The `enum size` value: length of the interleave header. -/
def HEADER_SIZE : Nat := 512
/-- The `enum size` value: length of one interleave block. -/
def BLOCK_SIZE : Nat := 16 * 1024
/-- The `enum size` value: largest accepted file. -/
def MAX_FILE_SIZE : Nat := 5 * 1024 * 1024

def CONSOLE_OFFSET : Nat := 0x100
def COMPANY_OFFSET : Nat := 0x110
def COPYRIGHT_OFFSET : Nat := 0x118
def LOCAL_NAME_OFFSET : Nat := 0x120
def INTL_NAME_OFFSET : Nat := 0x150
def PRODUCT_TYPE_OFFSET : Nat := 0x180
def PRODUCT_CODE_OFFSET : Nat := 0x183
def CHECKSUM_OFFSET : Nat := 0x18e
def IO_DEVICES_OFFSET : Nat := 0x190
def REGIONS_OFFSET : Nat := 0x1f0

def CONSOLE_LENGTH : Nat := 16
def COMPANY_LENGTH : Nat := 8
def COPYRIGHT_LENGTH : Nat := 8
def NAME_LENGTH : Nat := 48
def PRODUCT_TYPE_LENGTH : Nat := 2
def PRODUCT_CODE_LENGTH : Nat := 11
def CHECKSUM_LENGTH : Nat := 2
def IO_DEVICES_LENGTH : Nat := 16
def REGIONS_LENGTH : Nat := 3

/-- Width of `unsigned int` in bits. -/
def UINT_BITS : Nat := 32

/-! ## Data model -/

/-- The struct `RomFile` of `megarom.h`. -/
structure RomFile where
  contents : List Nat
  name : String
  length : Nat
  format : Nat
  calculated_checksum : Nat
deriving DecidableEq, Repr

/-- The struct `RomHeader` of `megarom.h`; every `char[N + 1]` array is a list. -/
structure RomHeader where
  console : List Nat
  company : List Nat
  copyright : List Nat
  local_name : List Nat
  intl_name : List Nat
  product_type : List Nat
  product_code : List Nat
  io_devices : List Nat
  regions : List Nat
  stored_checksum : Nat
deriving DecidableEq, Repr

/-! ## Memory primitives -/

/-- The store `buf[i] = v`; `none` when `i` is outside the buffer. -/
def store (buf : List Nat) (i v : Nat) : Option (List Nat) :=
  if i < buf.length then some (buf.set i v) else none

/-- The block returned by `malloc(n)`: `n` bytes of indeterminate contents. -/
def malloc (junk : Nat → Nat) (n : Nat) : List Nat :=
  (List.range n).map (fun i => junk i % 256)

/-! ## Checksum calculator -/

/-- The loop of `calculate_checksum`, entered with index `i` and accumulator
`checksum`: `for (; i < file.length; i += 2) checksum += (c[i] << 8) + c[i + 1];`. -/
def calculate_checksum_loop (file : RomFile) (i checksum : Nat) : Option Nat :=
  if i < file.length then
    match file.contents[i]?, file.contents[i + 1]? with
    | some hi, some lo =>
      calculate_checksum_loop file (i + 2) ((checksum + ((hi <<< 8) + lo)) % 2 ^ UINT_BITS)
    | _, _ => none
  else some checksum
termination_by file.length - i
decreasing_by omega

/-- The function `calculate_checksum` of `megarom.c`. -/
def calculate_checksum (file : RomFile) : Option Nat :=
  if file.length % 2 ≠ 0 then some 0
  else calculate_checksum_loop file HEADER_SIZE 0

/-! ## Format transcoder -/

/-- The inner loop of `interleave_file` for the block at `i`, entered with loop
variables `j` and `offset`:
`for (; j < BLOCK_SIZE / 2; j++, offset += 2) { ... }`. -/
def interleave_block (original : List Nat) (i : Nat) (j offset : Nat)
    (converted : List Nat) : Option (List Nat) :=
  if j < BLOCK_SIZE / 2 then
    let pos := HEADER_SIZE + i + j
    match original[i + offset]? with
    | none => none
    | some even =>
      match store converted (pos + BLOCK_SIZE / 2) even with
      | none => none
      | some converted1 =>
        match original[i + offset + 1]? with
        | none => none
        | some odd =>
          match store converted1 pos odd with
          | none => none
          | some converted2 => interleave_block original i (j + 1) (offset + 2) converted2
  else some converted
termination_by BLOCK_SIZE / 2 - j
decreasing_by omega

/-- The outer loop of `interleave_file`, entered with block start `i`:
`for (; i < file->length; i += BLOCK_SIZE) { int offset = 0; ... }`. -/
def interleave_loop (original : List Nat) (length : Nat) (i : Nat)
    (converted : List Nat) : Option (List Nat) :=
  if i < length then
    match interleave_block original i 0 0 converted with
    | none => none
    | some converted1 => interleave_loop original length (i + BLOCK_SIZE) converted1
  else some converted
termination_by length - i
decreasing_by simp only [BLOCK_SIZE]; omega

/-- The function `interleave_file` of `megarom.c`; the result is the value of
`*file` on return. -/
def interleave_file (junk : Nat → Nat) (file : RomFile) : Option RomFile :=
  if file.length < BLOCK_SIZE then some file
  else
    let length := file.length + HEADER_SIZE
    let converted := malloc junk length
    let original := file.contents
    match store converted 0 ((length / BLOCK_SIZE) % 256) with
    | none => none
    | some c0 =>
    match store c0 1 0x03 with
    | none => none
    | some c1 =>
    match store c1 8 0xaa with
    | none => none
    | some c2 =>
    match store c2 9 0xbb with
    | none => none
    | some c3 =>
    match store c3 10 0x06 with
    | none => none
    | some c4 =>
    match interleave_loop original file.length 0 c4 with
    | none => none
    | some c5 =>
      some { file with contents := c5, length := length, format := SMD_FILE }

/-- The inner loop of `deinterleave_file` for the block at `i`. -/
def deinterleave_block (original : List Nat) (i : Nat) (j offset : Nat)
    (converted : List Nat) : Option (List Nat) :=
  if j < BLOCK_SIZE / 2 then
    let pos := HEADER_SIZE + i + j
    match original[pos + BLOCK_SIZE / 2]? with
    | none => none
    | some even =>
      match store converted (i + offset) even with
      | none => none
      | some converted1 =>
        match original[pos]? with
        | none => none
        | some odd =>
          match store converted1 (i + offset + 1) odd with
          | none => none
          | some converted2 => deinterleave_block original i (j + 1) (offset + 2) converted2
  else some converted
termination_by BLOCK_SIZE / 2 - j
decreasing_by omega

/-- The outer loop of `deinterleave_file`; `length` is the local variable
`length`, the size of the converted buffer. -/
def deinterleave_loop (original : List Nat) (length : Nat) (i : Nat)
    (converted : List Nat) : Option (List Nat) :=
  if i < length then
    match deinterleave_block original i 0 0 converted with
    | none => none
    | some converted1 => deinterleave_loop original length (i + BLOCK_SIZE) converted1
  else some converted
termination_by length - i
decreasing_by simp only [BLOCK_SIZE]; omega

/-- The function `deinterleave_file` of `megarom.c`; the result is the value of
`*file` on return. -/
def deinterleave_file (junk : Nat → Nat) (file : RomFile) : Option RomFile :=
  if file.length < HEADER_SIZE + BLOCK_SIZE then some file
  else
    let length := file.length - HEADER_SIZE
    let converted := malloc junk length
    let original := file.contents
    match deinterleave_loop original length 0 converted with
    | none => none
    | some c =>
      some { file with contents := c, length := length, format := BIN_FILE }

/-! ## Byte layout of the two formats -/

/-- The source byte that `interleave_file` places at offset `p ≥ 512` of its
output: within each block the first half receives the odd-indexed bytes and the
second half the even-indexed ones. -/
def interleavedAt (original : List Nat) (p : Nat) : Option Nat :=
  if (p - 512) % 16384 < 8192 then
    original[(p - 512) / 16384 * 16384 + 2 * ((p - 512) % 16384) + 1]?
  else
    original[(p - 512) / 16384 * 16384 + 2 * ((p - 512) % 16384 - 8192)]?

/-- The source byte that `deinterleave_file` places at offset `p` of its output:
even offsets of a block come from the block's second half, odd offsets from its
first half, both read after the 512-byte header. -/
def deinterleavedAt (original : List Nat) (p : Nat) : Option Nat :=
  if p % 16384 % 2 = 0 then
    original[512 + p / 16384 * 16384 + p % 16384 / 2 + 8192]?
  else
    original[512 + p / 16384 * 16384 + p % 16384 / 2]?

/-! ## Sample images -/

/-- A linear image of one block of zero bytes. -/
def oneBlockBin : RomFile :=
  { contents := List.replicate 16384 0, name := "rom.bin", length := 16384,
    format := BIN_FILE, calculated_checksum := 0 }

/-- An interleaved image of one block: the signature bytes in a 512-byte header,
followed by 16384 zero bytes. -/
def oneBlockSmd : RomFile :=
  { contents := [1, 0x03, 0, 0, 0, 0, 0, 0, 0xaa, 0xbb, 0x06] ++ List.replicate 16885 0,
    name := "rom.smd", length := 16896, format := SMD_FILE, calculated_checksum := 0 }

/-- The image `oneBlockSmd` with every header byte replaced by `0xff`. -/
def oneBlockSmdOtherHeader : RomFile :=
  { contents := List.replicate 512 0xff ++ List.replicate 16384 0,
    name := "rom.smd", length := 16896, format := SMD_FILE, calculated_checksum := 0 }

/-! ## The checksum as the specification words it -/

/-- The big-endian 16-bit word of `contents` at offset `i`:
`256 * contents[i] + contents[i + 1]`. -/
def bigEndianWord (contents : List Nat) (i : Nat) : Nat :=
  256 * contents.getD i 0 + contents.getD (i + 1) 0

/-- The sum of all big-endian 16-bit words at even offsets `i` in `[512, length)`. -/
def wordSum (contents : List Nat) (length : Nat) : Nat :=
  (((List.range length).filter (fun i => 512 ≤ i ∧ i % 2 = 0)).map (bigEndianWord contents)).sum

/-- A 516-byte image: 512 zero bytes followed by the two words `0xffff`, `0xffff`. -/
def twoWordImage : RomFile :=
  { contents := List.replicate 512 0 ++ [0xff, 0xff, 0xff, 0xff], name := "two.bin",
    length := 516, format := BIN_FILE, calculated_checksum := 0 }

/-- A 513-byte image of nonzero bytes. -/
def oddImage : RomFile :=
  { contents := List.replicate 513 0xff, name := "odd.bin", length := 513,
    format := BIN_FILE, calculated_checksum := 0 }

/-! ## C strings -/

/-- The bytes of a string literal of the source, without the terminating NUL. -/
def bytes (s : String) : List Nat :=
  s.toList.map Char.toNat

/-- The C string held in a char array: the bytes before the first NUL. -/
def cstring (s : List Nat) : List Nat :=
  s.takeWhile (fun c => c != 0)

/-- The bytes that `strncpy(dest, &src[off], n)` writes to `dest[0 .. n)`: the
source bytes up to the first NUL, then NUL bytes up to `n`.  Source bytes after a
NUL are not read.  `none` when a byte that is read lies outside `src`. -/
def strncpy (src : List Nat) (off : Nat) : Nat → Option (List Nat)
  | 0 => some []
  | n + 1 =>
    match src[off]? with
    | none => none
    | some c =>
      if c = 0 then some (List.replicate (n + 1) 0)
      else
        match strncpy src (off + 1) n with
        | none => none
        | some rest => some (c :: rest)

/-- The array `char dest[n + 1]` after `memset(dest, 0, n + 1);` and
`strncpy(dest, &file[off], n);`. -/
def copy_field (file : List Nat) (off n : Nat) : Option (List Nat) :=
  match strncpy file off n with
  | none => none
  | some copied => some (copied ++ [0])

/-- The search of `strstr` in a list of bytes that holds no NUL: the offset of
the first occurrence of `needle`, or `none` for a null pointer. -/
def strstr_from (needle : List Nat) : List Nat → Option Nat
  | [] => if needle.isPrefixOf [] then some 0 else none
  | c :: rest =>
    if needle.isPrefixOf (c :: rest) then some 0
    else
      match strstr_from needle rest with
      | none => none
      | some k => some (k + 1)

/-- The call `strstr(haystack, needle)`: `haystack` is read as a C string, up to
its first NUL; the result is the offset of the match from `haystack`, or `none`
for a null pointer. -/
def strstr (haystack needle : List Nat) : Option Nat :=
  strstr_from needle (cstring haystack)

/-! ## Header parser -/

/-- The function `validate_header` of `megarom.c`; a nonzero result is `true`. -/
def validate_header (file : List Nat) : Option Bool :=
  match copy_field file CONSOLE_OFFSET CONSOLE_LENGTH with
  | none => none
  | some string =>
    -- TMSS check
    some ((strstr string (bytes "SEGA ")).isNone || (strstr string (bytes " SEGA")).isNone)

/-- The function `read_header` of `megarom.c`. -/
def read_header (file : List Nat) : Option RomHeader := do
  let console ← copy_field file CONSOLE_OFFSET CONSOLE_LENGTH
  let company ← copy_field file COMPANY_OFFSET COMPANY_LENGTH
  let copyright ← copy_field file COPYRIGHT_OFFSET COPYRIGHT_LENGTH
  let local_name ← copy_field file LOCAL_NAME_OFFSET NAME_LENGTH
  let intl_name ← copy_field file INTL_NAME_OFFSET NAME_LENGTH
  let product_type ← copy_field file PRODUCT_TYPE_OFFSET PRODUCT_TYPE_LENGTH
  let product_code ← copy_field file PRODUCT_CODE_OFFSET PRODUCT_CODE_LENGTH
  let io_devices ← copy_field file IO_DEVICES_OFFSET IO_DEVICES_LENGTH
  let regions ← copy_field file REGIONS_OFFSET REGIONS_LENGTH
  let hi ← file[CHECKSUM_OFFSET]?
  let lo ← file[CHECKSUM_OFFSET + 1]?
  some
    { console := console, company := company, copyright := copyright,
      local_name := local_name, intl_name := intl_name, product_type := product_type,
      product_code := product_code, io_devices := io_devices, regions := regions,
      stored_checksum := ((hi % 256) <<< 8) ||| (lo % 256) }

/-! ## Sample headers -/

/-- A 512-byte buffer of spaces: its console field holds neither `"SEGA "` nor
`" SEGA"`. -/
def blankHeader : List Nat :=
  List.replicate 512 0x20

/-- A 512-byte buffer of spaces whose console field is `" SEGA MEGA DRIVE"`, which
holds both `"SEGA "` and `" SEGA"`. -/
def shiftedSegaHeader : List Nat :=
  List.replicate 0x100 0x20 ++ bytes " SEGA MEGA DRIVE" ++ List.replicate 0xf0 0x20

/-- A 512-byte buffer of spaces whose console field starts with `'S'`, NUL, `'G'`,
`'A'`. -/
def nulHeader : List Nat :=
  List.replicate 0x100 0x20 ++ [0x53, 0x00, 0x47, 0x41] ++ List.replicate 0xfc 0x20

/-! ## The header fields as the specification words them -/

/-- The bytes of the buffer at `[off, off + n)`. -/
def fieldBytes (file : List Nat) (off n : Nat) : List Nat :=
  (file.drop off).take n

/-- The list `s` followed by zero bytes up to length `n`. -/
def zeroPadded (s : List Nat) (n : Nat) : List Nat :=
  s ++ List.replicate (n - s.length) 0

/-- The offset table of the string fields: accessor, offset, length. -/
def headerFields : List ((RomHeader → List Nat) × Nat × Nat) :=
  [ (RomHeader.console, 0x100, 16),
    (RomHeader.company, 0x110, 8),
    (RomHeader.copyright, 0x118, 8),
    (RomHeader.local_name, 0x120, 48),
    (RomHeader.intl_name, 0x150, 48),
    (RomHeader.product_type, 0x180, 2),
    (RomHeader.product_code, 0x183, 11),
    (RomHeader.io_devices, 0x190, 16),
    (RomHeader.regions, 0x1f0, 3) ]

/-! ## Publisher resolver -/

/-- The body of the lowercase loop of `get_company` for one char `c`:
`company[i] = c; if (c >= 'A' && c <= 'Z') company[i] |= 0b0100000;`. -/
def lower_char (c : Nat) : Nat :=
  if 0x41 ≤ c ∧ c ≤ 0x5a then c ||| 0x20 else c

/-- The lowercase loop of `get_company`, entered at index `i` with `n` iterations
left: the bytes it writes to `company[i ..]`. -/
def lower_loop (src : List Nat) (i : Nat) : Nat → Option (List Nat)
  | 0 => some []
  | n + 1 =>
    match src[i]? with
    | none => none
    | some c =>
      match lower_loop src (i + 1) n with
      | none => none
      | some rest => some (lower_char c :: rest)

/-- The function `get_company` of `megarom.c`.  A test `strstr(...) > 0` holds when
the pointer returned is not null. -/
def get_company (rom : RomHeader) : Option String :=
  match lower_loop rom.company 0 COMPANY_LENGTH with
  | none => none
  | some lowered =>
    let company := lowered ++ [0]
    some (
      if (strstr company (bytes "sega")).isSome then "Sega"
      else if (strstr company (bytes "acld")).isSome then "Ballistic"
      else if (strstr company (bytes "asci")).isSome then "Asciiware"
      else if (strstr company (bytes "inf")).isSome then "Infogrames"
      else if (strstr company (bytes "rsi")).isSome then "Razorsoft"
      else if (strstr company (bytes "trec")).isSome then "Treco"
      else if (strstr company (bytes "vrgn")).isSome then "Virgin Games"
      else if (strstr company (bytes "wstn")).isSome then "Westone"
      else if (strstr rom.copyright (bytes "t-snk 95-feb")).isSome then "Hi-Tech Entertainment"
      else if (strstr company (bytes "100")).isSome then "THQ Software"
      else if (strstr company (bytes "101")).isSome then "TecMagik"
      else if (strstr company (bytes "112")).isSome then "Designer Software"
      else if (strstr company (bytes "113")).isSome then "Psygnosis"
      else if (strstr company (bytes "119")).isSome then "Accolade"
      else if (strstr company (bytes "120")).isSome then "Codemasters"
      else if (strstr company (bytes "125")).isSome then "Interplay"
      else if (strstr company (bytes "130")).isSome then "Activision"
      else if (strstr company (bytes "132")).isSome then "Shiny or Playmates"
      else if (strstr company (bytes "144")).isSome then "Atlus"
      else if (strstr company (bytes "151")).isSome then "Infogrames"
      else if (strstr company (bytes "161")).isSome then "Fox Interactive"
      else if (strstr company (bytes "239")).isSome then "Disney Interactive"
      else if (strstr company (bytes "10")).isSome then "Takara"
      else if (strstr company (bytes "11")).isSome then "Taito or Accolade"
      else if (strstr company (bytes "12")).isSome then "Capcom"
      else if (strstr company (bytes "13")).isSome then "Data East"
      else if (strstr company (bytes "14")).isSome then "Namco or Tengen"
      else if (strstr company (bytes "15")).isSome then "Sunsoft"
      else if (strstr company (bytes "16")).isSome then "Bandai"
      else if (strstr company (bytes "17")).isSome then "Dempa"
      else if (strstr company (bytes "18")).isSome || (strstr company (bytes "19")).isSome then
        "Technosoft"
      else if (strstr company (bytes "20")).isSome then "Asmik"
      else if (strstr company (bytes "22")).isSome then "Micronet"
      else if (strstr company (bytes "23")).isSome then "Vic Tokai"
      else if (strstr company (bytes "24")).isSome then "American Sammy"
      else if (strstr company (bytes "29")).isSome then "Kyugo"
      else if (strstr company (bytes "32")).isSome then "Wolf Team"
      else if (strstr company (bytes "33")).isSome then "Kaneko"
      else if (strstr company (bytes "35")).isSome then "Toaplan"
      else if (strstr company (bytes "36")).isSome then "Tecmo"
      else if (strstr company (bytes "40")).isSome then "Toaplan"
      else if (strstr company (bytes "42")).isSome then "UFL Company Limited"
      else if (strstr company (bytes "43")).isSome then "Human"
      else if (strstr company (bytes "45")).isSome then "Game Arts"
      else if (strstr company (bytes "47")).isSome then "Sage's Creation"
      else if (strstr company (bytes "48")).isSome then "Tengen"
      else if (strstr company (bytes "49")).isSome then "Renovation or Telenet"
      else if (strstr company (bytes "50")).isSome then "Electronic Arts"
      else if (strstr company (bytes "56")).isSome then "Razorsoft"
      else if (strstr company (bytes "58")).isSome then "Mentrix"
      else if (strstr company (bytes "60")).isSome then "Victor Musical Industries"
      else if (strstr company (bytes "69")).isSome then "Arena"
      else if (strstr company (bytes "70")).isSome then "Virgin Games"
      else if (strstr company (bytes "73")).isSome then "Soft Vision"
      else if (strstr company (bytes "74")).isSome then "Palsoft"
      else if (strstr company (bytes "76")).isSome then "Koei"
      else if (strstr company (bytes "79")).isSome then "U.S. Gold"
      else if (strstr company (bytes "81")).isSome then "Acclaim or Flying Edge"
      else if (strstr company (bytes "83")).isSome then "Gametek"
      else if (strstr company (bytes "86")).isSome then "Absolute"
      else if (strstr company (bytes "93")).isSome then "Sony"
      else if (strstr company (bytes "95")).isSome then "Konami"
      else if (strstr company (bytes "97")).isSome then "Tradewest"
      else "Unknown")

/-! ## The publisher table as the specification words it -/

/-- ASCII lowercase of one byte. -/
def asciiLower (c : Nat) : Nat :=
  if 65 ≤ c ∧ c ≤ 90 then c + 32 else c

/-- The rules of the publisher table in declaration order: pattern, name. -/
def companyRules : List (String × String) :=
  [ ("sega", "Sega"),
    ("acld", "Ballistic"),
    ("asci", "Asciiware"),
    ("inf", "Infogrames"),
    ("rsi", "Razorsoft"),
    ("trec", "Treco"),
    ("vrgn", "Virgin Games"),
    ("wstn", "Westone"),
    ("t-snk 95-feb", "Hi-Tech Entertainment"),
    ("100", "THQ Software"),
    ("101", "TecMagik"),
    ("112", "Designer Software"),
    ("113", "Psygnosis"),
    ("119", "Accolade"),
    ("120", "Codemasters"),
    ("125", "Interplay"),
    ("130", "Activision"),
    ("132", "Shiny or Playmates"),
    ("144", "Atlus"),
    ("151", "Infogrames"),
    ("161", "Fox Interactive"),
    ("239", "Disney Interactive"),
    ("10", "Takara"),
    ("11", "Taito or Accolade"),
    ("12", "Capcom"),
    ("13", "Data East"),
    ("14", "Namco or Tengen"),
    ("15", "Sunsoft"),
    ("16", "Bandai"),
    ("17", "Dempa"),
    ("18", "Technosoft"),
    ("19", "Technosoft"),
    ("20", "Asmik"),
    ("22", "Micronet"),
    ("23", "Vic Tokai"),
    ("24", "American Sammy"),
    ("29", "Kyugo"),
    ("32", "Wolf Team"),
    ("33", "Kaneko"),
    ("35", "Toaplan"),
    ("36", "Tecmo"),
    ("40", "Toaplan"),
    ("42", "UFL Company Limited"),
    ("43", "Human"),
    ("45", "Game Arts"),
    ("47", "Sage's Creation"),
    ("48", "Tengen"),
    ("49", "Renovation or Telenet"),
    ("50", "Electronic Arts"),
    ("56", "Razorsoft"),
    ("58", "Mentrix"),
    ("60", "Victor Musical Industries"),
    ("69", "Arena"),
    ("70", "Virgin Games"),
    ("73", "Soft Vision"),
    ("74", "Palsoft"),
    ("76", "Koei"),
    ("79", "U.S. Gold"),
    ("81", "Acclaim or Flying Edge"),
    ("83", "Gametek"),
    ("86", "Absolute"),
    ("93", "Sony"),
    ("95", "Konami"),
    ("97", "Tradewest") ]

/-- The name attached to the earliest rule of `rules` whose pattern is a substring
of `field`, and `"Unknown"` when no rule matches. -/
def firstMatch (rules : List (String × String)) (field : List Nat) : String :=
  match rules.find? (fun r => decide (bytes r.1 <:+: field)) with
  | some r => r.2
  | none => "Unknown"

/-- A 512-byte buffer of spaces with console `"SEGA MEGA DRIVE "` and company
`"SEGA    "`. -/
def segaHeader : List Nat :=
  List.replicate 0x100 0x20 ++ bytes "SEGA MEGA DRIVE " ++ bytes "SEGA    "
    ++ List.replicate 0xe8 0x20

/-- The record held in `segaHeader`. -/
def segaRecord : RomHeader :=
  { console := bytes "SEGA MEGA DRIVE " ++ [0],
    company := bytes "SEGA    " ++ [0],
    copyright := List.replicate 8 0x20 ++ [0],
    local_name := List.replicate 48 0x20 ++ [0],
    intl_name := List.replicate 48 0x20 ++ [0],
    product_type := List.replicate 2 0x20 ++ [0],
    product_code := List.replicate 11 0x20 ++ [0],
    io_devices := List.replicate 16 0x20 ++ [0],
    regions := List.replicate 3 0x20 ++ [0],
    stored_checksum := 0x2020 }

/-! ## Three-digit publisher codes -/

/-- The 3-digit codes of the table: code, its publisher, the 2-digit code that is
its prefix, and the publisher of that 2-digit code. -/
def threeDigitCodes : List (String × String × String × String) :=
  [ ("100", "THQ Software", "10", "Takara"),
    ("101", "TecMagik", "10", "Takara"),
    ("112", "Designer Software", "11", "Taito or Accolade"),
    ("113", "Psygnosis", "11", "Taito or Accolade"),
    ("119", "Accolade", "11", "Taito or Accolade"),
    ("120", "Codemasters", "12", "Capcom"),
    ("125", "Interplay", "12", "Capcom"),
    ("130", "Activision", "13", "Data East"),
    ("132", "Shiny or Playmates", "13", "Data East"),
    ("144", "Atlus", "14", "Namco or Tengen"),
    ("151", "Infogrames", "15", "Sunsoft"),
    ("161", "Fox Interactive", "16", "Bandai"),
    ("239", "Disney Interactive", "23", "Vic Tokai") ]

/-- A 512-byte buffer of spaces with company `"120     "`. -/
def codemastersHeader : List Nat :=
  List.replicate 0x110 0x20 ++ bytes "120     " ++ List.replicate 0xe8 0x20

/-- The buffer `segaHeader` with copyright `"(C)SEGA "`. -/
def segaHeaderCopyright : List Nat :=
  List.replicate 0x100 0x20 ++ bytes "SEGA MEGA DRIVE " ++ bytes "SEGA    "
    ++ bytes "(C)SEGA " ++ List.replicate 0xe0 0x20

/-- A 512-byte buffer of spaces whose console field is `" SEGA GENESIS   "`. -/
def paddedGenesisHeader : List Nat :=
  List.replicate 0x100 0x20 ++ bytes " SEGA GENESIS   " ++ List.replicate 0xf0 0x20

/-! ## Sample images for the block count and the partial block -/

/-- A linear image of 256 blocks (4 MiB) of zero bytes. -/
def fourMiBBin : RomFile :=
  { contents := List.replicate 4194304 0, name := "big.bin", length := 4194304,
    format := BIN_FILE, calculated_checksum := 0 }

/-- A linear image of 16896 zero bytes: the header size plus one block. -/
def headerPlusBlockBin : RomFile :=
  { contents := List.replicate 16896 0, name := "rom.bin", length := 16896,
    format := BIN_FILE, calculated_checksum := 0 }

/-! ## Conversion orchestrator -/

/-- The kinds of the one-line error messages of `megarom.c`. -/
inductive ErrorKind where
  | could_not_open
  | too_small
  | too_large
  | invalid_header
  | could_not_write
deriving DecidableEq, Repr

/-- The text that `print_error` receives for each kind of error. -/
def error_message (kind : ErrorKind) (file_name : String) : String :=
  match kind with
  | ErrorKind.could_not_open => "Could not open file: " ++ file_name
  | ErrorKind.too_small => "File is too small: " ++ file_name
  | ErrorKind.too_large => "File is too large: " ++ file_name
  | ErrorKind.invalid_header => "Invalid ROM header: " ++ file_name
  | ErrorKind.could_not_write => "Could not write file: " ++ file_name

/-- The byte `contents[i]` as the signature test of `open_file` reads it: the byte
of the buffer at `i`, and past the end of the buffer the byte that lies there,
given by `beyond`. -/
def signature_byte (beyond : Nat → Nat) (contents : List Nat) (i : Nat) : Nat :=
  match contents[i]? with
  | some b => b
  | none => beyond i % 256

/-- The expression of `open_file` that detects the smd header:
`contents[1] == 0x03 && contents[8] == 0xaa && contents[9] == 0xbb && contents[10] == 0x06`.
The operator `&&` reads its right operand only when the left one holds.  The
result is the `int` value 0 or 1. -/
def smd_signature (beyond : Nat → Nat) (contents : List Nat) : Nat :=
  if signature_byte beyond contents 1 ≠ 0x03 then 0
  else if signature_byte beyond contents 8 ≠ 0xaa then 0
  else if signature_byte beyond contents 9 ≠ 0xbb then 0
  else if signature_byte beyond contents 10 = 0x06 then 1
  else 0

/-- The function `open_file` of `megarom.c` on a file that exists and holds
`bytes`: `malloc(file_size)` and `fread` give a buffer of exactly these bytes.
The field `calculated_checksum` is not yet set when `calculate_checksum` receives
the struct, and that function does not read it. -/
def open_file (beyond : Nat → Nat) (file_name : String) (bytes : List Nat) : Option RomFile :=
  let file : RomFile :=
    { contents := bytes, name := file_name, length := bytes.length,
      -- checks for smd file header
      format := smd_signature beyond bytes,
      calculated_checksum := 0 }
  match calculate_checksum file with
  | none => none
  | some checksum => some { file with calculated_checksum := checksum }

/-- The function `write_file` of `megarom.c` when the output file can be opened:
the bytes that `fwrite(file.contents, 1, file.length, handle)` writes. -/
def write_file (file : RomFile) : Option (List Nat) :=
  if file.length ≤ file.contents.length then some (file.contents.take file.length) else none

/-- The lines that `print_header_info` prints on success; each string field is
the C string that `%s` prints. -/
structure HeaderReport where
  file_name : String
  file_format : String
  console : List Nat
  publisher : String
  local_name : List Nat
  intl_name : List Nat
  copyright : List Nat
  product_type : List Nat
  product_code : List Nat
  io_devices : List Nat
  regions : List Nat
  stored_checksum : Nat × Nat
  calculated_checksum : Nat × Nat
deriving DecidableEq, Repr

/-- The part of `print_header_info` before the call of `validate_header`, on a
file that exists and holds `bytes`: the error printed by a size check, or the
image that `validate_header` and `read_header` receive. -/
def inspect_image (beyond junk : Nat → Nat) (file_name : String) (bytes : List Nat) :
    Option (Except ErrorKind RomFile) :=
  -- reads input file
  match open_file beyond file_name bytes with
  | none => none
  | some file =>
    if file.length < HEADER_SIZE then some (Except.error ErrorKind.too_small)
    else if file.length > MAX_FILE_SIZE then some (Except.error ErrorKind.too_large)
    -- converts file format if necessary
    else if file.format = SMD_FILE then
      match deinterleave_file junk file with
      | none => none
      | some converted => some (Except.ok converted)
    else some (Except.ok file)

/-- The function `print_header_info` of `megarom.c` on a file that exists and
holds `bytes`: the error printed, or the report printed. -/
def print_header_info (beyond junk : Nat → Nat) (file_name : String) (bytes : List Nat) :
    Option (Except ErrorKind HeaderReport) :=
  match inspect_image beyond junk file_name bytes with
  | none => none
  | some (Except.error kind) => some (Except.error kind)
  | some (Except.ok file) =>
    match validate_header file.contents with
    | none => none
    | some false => some (Except.error ErrorKind.invalid_header)
    | some true =>
      match read_header file.contents with
      | none => none
      | some rom =>
        match get_company rom with
        | none => none
        | some publisher =>
          some (Except.ok
            { file_name := file_name,
              file_format := if file.format ≠ 0 then "Super Magic Drive" else "Binary",
              console := cstring rom.console,
              publisher := publisher,
              local_name := cstring rom.local_name,
              intl_name := cstring rom.intl_name,
              copyright := cstring rom.copyright,
              product_type := cstring rom.product_type,
              product_code := cstring rom.product_code,
              io_devices := cstring rom.io_devices,
              regions := cstring rom.regions,
              stored_checksum :=
                ((rom.stored_checksum &&& 0xff00) >>> 8, rom.stored_checksum &&& 0x00ff),
              calculated_checksum :=
                ((file.calculated_checksum &&& 0xff00) >>> 8,
                  file.calculated_checksum &&& 0x00ff) })

/-- The function `convert_file` of `megarom.c` on an input file that exists and
holds `bytes`, when the output file can be opened: the error printed, or the
bytes written to the output file. -/
def convert_file (beyond junk : Nat → Nat) (input_file_name : String) (bytes : List Nat) :
    Option (Except ErrorKind (List Nat)) :=
  -- reads input file
  match open_file beyond input_file_name bytes with
  | none => none
  | some file =>
    if file.length < HEADER_SIZE + BLOCK_SIZE then some (Except.error ErrorKind.too_small)
    else if file.length > MAX_FILE_SIZE then some (Except.error ErrorKind.too_large)
    else
      -- converts file format
      match (if file.format = BIN_FILE then interleave_file junk file
        else deinterleave_file junk file) with
      | none => none
      | some converted =>
        match validate_header converted.contents with
        | none => none
        | some false => some (Except.error ErrorKind.invalid_header)
        | some true =>
          match write_file converted with
          | none => none
          | some written => some (Except.ok written)

/-! ## Notions used to state the orchestrator claims -/

/-- The input holds the smd signature: bytes 1, 8, 9, 10 are `0x03, 0xAA, 0xBB, 0x06`. -/
def hasSmdSignature (bytes : List Nat) : Prop :=
  bytes[1]? = some 0x03 ∧ bytes[8]? = some 0xaa ∧ bytes[9]? = some 0xbb ∧
    bytes[10]? = some 0x06

instance (bytes : List Nat) : Decidable (hasSmdSignature bytes) := by
  unfold hasSmdSignature
  infer_instance

/-- The checksum of a buffer whose length field is its size: the word sum modulo
`2 ^ 32` on even length, zero on odd length. -/
def checksumOf (contents : List Nat) : Nat :=
  if contents.length % 2 = 0 then wordSum contents contents.length % 2 ^ 32 else 0

/-- The two hex bytes that `print_header_info` prints for a checksum `c`. -/
def hexBytes (c : Nat) : Nat × Nat :=
  ((c &&& 0xff00) >>> 8, c &&& 0x00ff)

/-- A 512-byte interleaved header with no payload: the signature bytes and zeros. -/
def headerOnlySmd : List Nat :=
  [0, 0x03, 0, 0, 0, 0, 0, 0, 0xaa, 0xbb, 0x06] ++ List.replicate 501 0

/-- The byte at offset `p` of the image `staleSmd`. -/
def staleSmdByte (p : Nat) : Nat :=
  if p = 0 then 1
  else if p = 1 then 0x03
  else if p = 8 then 0xaa
  else if p = 9 then 0xbb
  else if p = 10 then 0x06
  else if p = 8704 then 1
  else 0

/-- A 16896-byte interleaved image: the signature bytes in the header, and a payload
of zeros except for the byte `1` at offset `512 + 8192`, which is byte 0 of the
linear image. -/
def staleSmd : List Nat :=
  (List.range 16896).map staleSmdByte

/-! ## Memory lemmas -/

theorem store_eq_some {buf : List Nat} {i : Nat} (v : Nat) (h : i < buf.length) :
    store buf i v = some (buf.set i v) := by
  simp [store, h]

theorem store_eq_none {buf : List Nat} {i : Nat} (v : Nat) (h : buf.length ≤ i) :
    store buf i v = none := by
  simp [store, Nat.not_lt.mpr h]

theorem length_malloc (junk : Nat → Nat) (n : Nat) : (malloc junk n).length = n := by
  simp [malloc]

theorem BLOCK_SIZE_eq : BLOCK_SIZE = 16384 := by norm_num [BLOCK_SIZE]

theorem BLOCK_SIZE_half : BLOCK_SIZE / 2 = 8192 := by norm_num [BLOCK_SIZE]

theorem HEADER_SIZE_eq : HEADER_SIZE = 512 := rfl

/-! ## The interleaving loops -/

/-- One run of the inner loop of `interleave_file` from `j` to the end of the
block: it succeeds when the block lies inside both buffers, keeps the length of
`converted`, and writes exactly the positions of the block from `j` on. -/
theorem interleave_block_spec (original : List Nat) (i : Nat) :
    ∀ (n j : Nat) (converted : List Nat), j + n = 8192 →
      i + 16384 ≤ original.length → 512 + i + 16384 ≤ converted.length →
      ∃ out, interleave_block original i j (2 * j) converted = some out ∧
        out.length = converted.length ∧
        ∀ p, out[p]? =
          if 512 + i + j ≤ p ∧ p < 512 + i + 8192 then original[i + 2 * (p - (512 + i)) + 1]?
          else if 512 + i + 8192 + j ≤ p ∧ p < 512 + i + 16384 then
            original[i + 2 * (p - (512 + i + 8192))]?
          else converted[p]? := by
  intro n
  induction n with
  | zero =>
    intro j converted hj _ _
    refine ⟨converted, ?_, rfl, ?_⟩
    · rw [interleave_block, BLOCK_SIZE_half, if_neg (by omega)]
    · intro p
      rw [if_neg (by omega), if_neg (by omega)]
  | succ n ih =>
    intro j converted hj ho hc
    have hlt : j < 8192 := by omega
    obtain ⟨e, he⟩ : ∃ e, original[i + 2 * j]? = some e :=
      ⟨_, List.getElem?_eq_getElem (by omega)⟩
    obtain ⟨o, ho1⟩ : ∃ o, original[i + 2 * j + 1]? = some o :=
      ⟨_, List.getElem?_eq_getElem (by omega)⟩
    have hs1 : store converted (512 + i + j + 8192) e
        = some (converted.set (512 + i + j + 8192) e) := store_eq_some _ (by omega)
    have hs2 : store (converted.set (512 + i + j + 8192) e) (512 + i + j) o
        = some ((converted.set (512 + i + j + 8192) e).set (512 + i + j) o) :=
      store_eq_some _ (by simp; omega)
    obtain ⟨out, h1, h2, h3⟩ := ih (j + 1)
      ((converted.set (512 + i + j + 8192) e).set (512 + i + j) o) (by omega) ho
      (by simp; omega)
    refine ⟨out, ?_, ?_, ?_⟩
    · rw [interleave_block]
      simp only [BLOCK_SIZE_half, HEADER_SIZE_eq, if_pos hlt, he, ho1, hs1, hs2]
      rw [show 2 * j + 2 = 2 * (j + 1) by ring]
      exact h1
    · rw [h2]; simp
    · intro p
      rw [h3 p]
      by_cases c1 : 512 + i + (j + 1) ≤ p ∧ p < 512 + i + 8192
      · rw [if_pos c1, if_pos (by omega)]
      · rw [if_neg c1]
        by_cases c2 : 512 + i + 8192 + (j + 1) ≤ p ∧ p < 512 + i + 16384
        · rw [if_pos c2, if_neg (by omega), if_pos (by omega)]
        · rw [if_neg c2]
          by_cases c3 : p = 512 + i + j
          · subst c3
            rw [if_pos (by omega)]
            rw [List.getElem?_set, if_pos rfl, if_pos (by simp; omega), ← ho1,
              show 512 + i + j - (512 + i) = j by omega]
          · rw [if_neg (by omega)]
            rw [List.getElem?_set_ne (by omega)]
            by_cases c4 : p = 512 + i + j + 8192
            · subst c4
              rw [if_pos (by omega)]
              rw [List.getElem?_set, if_pos rfl, if_pos (by omega), ← he,
                show 512 + i + j + 8192 - (512 + i + 8192) = j by omega]
            · rw [if_neg (by omega)]
              rw [List.getElem?_set_ne (by omega)]

/-- The outer loop of `interleave_file` from block start `i` on a source made
of whole blocks: it succeeds, keeps the length of `converted` and fills every
offset from `512 + i` on. -/
theorem interleave_loop_spec (original : List Nat) :
    ∀ (k i : Nat) (converted : List Nat), original.length = i + k * 16384 →
      i % 16384 = 0 → converted.length = original.length + 512 →
      ∃ out, interleave_loop original original.length i converted = some out ∧
        out.length = converted.length ∧
        ∀ p, out[p]? =
          if 512 + i ≤ p ∧ p < 512 + original.length then interleavedAt original p
          else converted[p]? := by
  intro k
  induction k with
  | zero =>
    intro i converted hl _ _
    refine ⟨converted, ?_, rfl, ?_⟩
    · rw [interleave_loop, if_neg (by omega)]
    · intro p
      rw [if_neg (by omega)]
  | succ k ih =>
    intro i converted hl hi hc
    obtain ⟨out1, hb1, hb2, hb3⟩ :=
      interleave_block_spec original i 8192 0 converted (by omega) (by omega) (by omega)
    obtain ⟨out, h1, h2, h3⟩ := ih (i + 16384) out1 (by omega) (by omega) (by omega)
    refine ⟨out, ?_, by omega, ?_⟩
    · rw [interleave_loop, if_pos (by omega)]
      simp only [hb1, BLOCK_SIZE_eq]
      exact h1
    · intro p
      rw [h3 p]
      by_cases c1 : 512 + (i + 16384) ≤ p ∧ p < 512 + original.length
      · rw [if_pos c1, if_pos (by omega)]
      · rw [if_neg c1, hb3 p]
        by_cases c2 : 512 + i + 0 ≤ p ∧ p < 512 + i + 8192
        · rw [if_pos c2, if_pos (by omega), interleavedAt, if_pos (by omega)]
          rw [show (p - 512) / 16384 * 16384 + 2 * ((p - 512) % 16384) + 1
            = i + 2 * (p - (512 + i)) + 1 by omega]
        · rw [if_neg c2]
          by_cases c3 : 512 + i + 8192 + 0 ≤ p ∧ p < 512 + i + 16384
          · rw [if_pos c3, if_pos (by omega), interleavedAt, if_neg (by omega)]
            rw [show (p - 512) / 16384 * 16384 + 2 * ((p - 512) % 16384 - 8192)
              = i + 2 * (p - (512 + i + 8192)) by omega]
          · rw [if_neg c3, if_neg (by omega)]

/-! ## The deinterleaving loops -/

/-- One run of the inner loop of `deinterleave_file` from `j` to the end of the
block. -/
theorem deinterleave_block_spec (original : List Nat) (i : Nat) :
    ∀ (n j : Nat) (converted : List Nat), j + n = 8192 →
      512 + i + 16384 ≤ original.length → i + 16384 ≤ converted.length →
      ∃ out, deinterleave_block original i j (2 * j) converted = some out ∧
        out.length = converted.length ∧
        ∀ p, out[p]? =
          if i + 2 * j ≤ p ∧ p < i + 16384 then
            (if (p - i) % 2 = 0 then original[512 + i + (p - i) / 2 + 8192]?
             else original[512 + i + (p - i) / 2]?)
          else converted[p]? := by
  intro n
  induction n with
  | zero =>
    intro j converted hj _ _
    refine ⟨converted, ?_, rfl, ?_⟩
    · rw [deinterleave_block, BLOCK_SIZE_half, if_neg (by omega)]
    · intro p
      rw [if_neg (by omega)]
  | succ n ih =>
    intro j converted hj ho hc
    have hlt : j < 8192 := by omega
    obtain ⟨e, he⟩ : ∃ e, original[512 + i + j + 8192]? = some e :=
      ⟨_, List.getElem?_eq_getElem (by omega)⟩
    obtain ⟨o, ho1⟩ : ∃ o, original[512 + i + j]? = some o :=
      ⟨_, List.getElem?_eq_getElem (by omega)⟩
    have hs1 : store converted (i + 2 * j) e = some (converted.set (i + 2 * j) e) :=
      store_eq_some _ (by omega)
    have hs2 : store (converted.set (i + 2 * j) e) (i + 2 * j + 1) o
        = some ((converted.set (i + 2 * j) e).set (i + 2 * j + 1) o) :=
      store_eq_some _ (by simp; omega)
    obtain ⟨out, h1, h2, h3⟩ := ih (j + 1)
      ((converted.set (i + 2 * j) e).set (i + 2 * j + 1) o) (by omega) ho
      (by simp; omega)
    refine ⟨out, ?_, ?_, ?_⟩
    · rw [deinterleave_block]
      simp only [BLOCK_SIZE_half, HEADER_SIZE_eq, if_pos hlt, he, ho1, hs1, hs2]
      rw [show 2 * j + 2 = 2 * (j + 1) by ring]
      exact h1
    · rw [h2]; simp
    · intro p
      rw [h3 p]
      by_cases c1 : i + 2 * (j + 1) ≤ p ∧ p < i + 16384
      · rw [if_pos c1, if_pos (show i + 2 * j ≤ p ∧ p < i + 16384 by omega)]
      · rw [if_neg c1]
        by_cases c3 : p = i + 2 * j + 1
        · subst c3
          rw [if_pos (show i + 2 * j ≤ i + 2 * j + 1 ∧ i + 2 * j + 1 < i + 16384 by omega),
            if_neg (show ¬ (i + 2 * j + 1 - i) % 2 = 0 by omega)]
          rw [List.getElem?_set, if_pos rfl, if_pos (by simp; omega), ← ho1,
            show 512 + i + (i + 2 * j + 1 - i) / 2 = 512 + i + j by omega]
        · rw [List.getElem?_set_ne (by omega)]
          by_cases c4 : p = i + 2 * j
          · subst c4
            rw [if_pos (show i + 2 * j ≤ i + 2 * j ∧ i + 2 * j < i + 16384 by omega),
              if_pos (show (i + 2 * j - i) % 2 = 0 by omega)]
            rw [List.getElem?_set, if_pos rfl, if_pos (by omega), ← he,
              show 512 + i + (i + 2 * j - i) / 2 + 8192 = 512 + i + j + 8192 by omega]
          · rw [if_neg (show ¬ (i + 2 * j ≤ p ∧ p < i + 16384) by omega)]
            rw [List.getElem?_set_ne (by omega)]

/-- The outer loop of `deinterleave_file` from block start `i`, when the
converted buffer has `length` bytes made of whole blocks. -/
theorem deinterleave_loop_spec (original : List Nat) (length : Nat) :
    ∀ (k i : Nat) (converted : List Nat), length = i + k * 16384 →
      i % 16384 = 0 → converted.length = length → original.length = length + 512 →
      ∃ out, deinterleave_loop original length i converted = some out ∧
        out.length = converted.length ∧
        ∀ p, out[p]? =
          if i ≤ p ∧ p < length then deinterleavedAt original p else converted[p]? := by
  intro k
  induction k with
  | zero =>
    intro i converted hl _ _ _
    refine ⟨converted, ?_, rfl, ?_⟩
    · rw [deinterleave_loop, if_neg (by omega)]
    · intro p
      rw [if_neg (by omega)]
  | succ k ih =>
    intro i converted hl hi hc ho
    obtain ⟨out1, hb1, hb2, hb3⟩ :=
      deinterleave_block_spec original i 8192 0 converted (by omega) (by omega) (by omega)
    obtain ⟨out, h1, h2, h3⟩ := ih (i + 16384) out1 (by omega) (by omega) (by omega) ho
    refine ⟨out, ?_, by omega, ?_⟩
    · rw [deinterleave_loop, if_pos (by omega)]
      simp only [hb1, BLOCK_SIZE_eq]
      exact h1
    · intro p
      rw [h3 p]
      by_cases c1 : i + 16384 ≤ p ∧ p < length
      · rw [if_pos c1, if_pos (show i ≤ p ∧ p < length by omega)]
      · rw [if_neg c1, hb3 p]
        by_cases c2 : i + 2 * 0 ≤ p ∧ p < i + 16384
        · rw [if_pos c2, if_pos (show i ≤ p ∧ p < length by omega), deinterleavedAt]
          by_cases c3 : (p - i) % 2 = 0
          · rw [if_pos c3, if_pos (show p % 16384 % 2 = 0 by omega)]
            rw [show 512 + p / 16384 * 16384 + p % 16384 / 2 + 8192
              = 512 + i + (p - i) / 2 + 8192 by omega]
          · rw [if_neg c3, if_neg (show ¬ p % 16384 % 2 = 0 by omega)]
            rw [show 512 + p / 16384 * 16384 + p % 16384 / 2
              = 512 + i + (p - i) / 2 by omega]
        · rw [if_neg c2, if_neg (show ¬ (i ≤ p ∧ p < length) by omega)]

/-! ## The transcoding functions on images made of whole blocks -/

/-- What `interleave_file` returns on an image of `k ≥ 1` whole blocks: the
call is defined, and the result is described byte by byte. -/
theorem interleave_file_spec (junk : Nat → Nat) (file : RomFile) (k : Nat) (hk : 1 ≤ k)
    (hlen : file.length = k * 16384) (hbuf : file.contents.length = file.length) :
    ∃ out, interleave_file junk file = some out ∧
      out.length = file.length + 512 ∧ out.contents.length = file.length + 512 ∧
      out.format = SMD_FILE ∧ out.name = file.name ∧
      out.calculated_checksum = file.calculated_checksum ∧
      out.contents[0]? = some ((file.length + 512) / 16384 % 256) ∧
      out.contents[1]? = some 0x03 ∧ out.contents[8]? = some 0xaa ∧
      out.contents[9]? = some 0xbb ∧ out.contents[10]? = some 0x06 ∧
      (∀ p, p < 512 → p ≠ 0 → p ≠ 1 → p ≠ 8 → p ≠ 9 → p ≠ 10 →
        out.contents[p]? = some (junk p % 256)) ∧
      ∀ p, 512 ≤ p → p < file.length + 512 →
        out.contents[p]? = interleavedAt file.contents p := by
  have hm : (malloc junk (file.length + 512)).length = file.length + 512 := length_malloc _ _
  obtain ⟨c, hc1, hc2, hc3⟩ := interleave_loop_spec file.contents k 0
    ((((((malloc junk (file.length + 512)).set 0 ((file.length + 512) / 16384 % 256)).set 1
      0x03).set 8 0xaa).set 9 0xbb).set 10 0x06) (by omega) (by omega) (by simp [hm]; omega)
  simp only [List.length_set, hm] at hc2
  rw [hbuf] at hc1 hc3
  refine ⟨{ file with contents := c, length := file.length + 512, format := SMD_FILE },
    ?_, rfl, hc2, rfl, rfl, rfl, ?_, ?_, ?_, ?_, ?_, ?_, ?_⟩
  · rw [interleave_file, if_neg (by rw [BLOCK_SIZE_eq]; omega)]
    simp only [HEADER_SIZE_eq, BLOCK_SIZE_eq]
    rw [store_eq_some _ (by rw [hm]; omega)]
    simp only []
    rw [store_eq_some _ (by simp [hm])]
    simp only []
    rw [store_eq_some _ (by simp [hm])]
    simp only []
    rw [store_eq_some _ (by simp [hm])]
    simp only []
    rw [store_eq_some _ (by simp [hm])]
    simp only [hc1]
  · rw [hc3 0, if_neg (by omega)]
    simp [List.getElem?_set, hm]
  · rw [hc3 1, if_neg (by omega)]
    simp [List.getElem?_set, hm]
  · rw [hc3 8, if_neg (by omega)]
    simp [List.getElem?_set, hm]
  · rw [hc3 9, if_neg (by omega)]
    simp [List.getElem?_set, hm]
  · rw [hc3 10, if_neg (by omega)]
    simp [List.getElem?_set, hm]
  · intro p hp h0 h1 h8 h9 h10
    rw [hc3 p, if_neg (by omega)]
    rw [List.getElem?_set_ne (Ne.symm h10), List.getElem?_set_ne (Ne.symm h9),
      List.getElem?_set_ne (Ne.symm h8), List.getElem?_set_ne (Ne.symm h1),
      List.getElem?_set_ne (Ne.symm h0)]
    simp only [malloc, List.getElem?_map]
    rw [List.getElem?_range (by omega)]
    rfl
  · intro p hp1 hp2
    rw [hc3 p, if_pos (by omega)]

/-- What `deinterleave_file` returns on an image made of the header and `k ≥ 1`
whole blocks. -/
theorem deinterleave_file_spec (junk : Nat → Nat) (file : RomFile) (k : Nat) (hk : 1 ≤ k)
    (hlen : file.length = 512 + k * 16384) (hbuf : file.contents.length = file.length) :
    ∃ out, deinterleave_file junk file = some out ∧
      out.length = file.length - 512 ∧ out.contents.length = file.length - 512 ∧
      out.format = BIN_FILE ∧ out.name = file.name ∧
      out.calculated_checksum = file.calculated_checksum ∧
      ∀ p, p < file.length - 512 → out.contents[p]? = deinterleavedAt file.contents p := by
  have hm : (malloc junk (file.length - 512)).length = file.length - 512 := length_malloc _ _
  obtain ⟨c, hc1, hc2, hc3⟩ := deinterleave_loop_spec file.contents (file.length - 512) k 0
    (malloc junk (file.length - 512)) (by omega) (by omega) hm (by omega)
  rw [hm] at hc2
  refine ⟨{ file with contents := c, length := file.length - 512, format := BIN_FILE },
    ?_, rfl, hc2, rfl, rfl, rfl, ?_⟩
  · rw [deinterleave_file, if_neg (by rw [BLOCK_SIZE_eq, HEADER_SIZE_eq]; omega)]
    simp only [HEADER_SIZE_eq, hc1]
  · intro p hp
    rw [hc3 p, if_pos (by omega)]

/-! ## Facts about the sample images -/

/-- From offset 512 on, the two sample interleaved images hold the same bytes. -/
theorem oneBlockSmd_payload (p : Nat) (hp : 512 ≤ p) :
    oneBlockSmdOtherHeader.contents[p]? = oneBlockSmd.contents[p]? := by
  simp only [oneBlockSmdOtherHeader, oneBlockSmd]
  rw [List.getElem?_append_right (by simp only [List.length_replicate]; exact hp),
    List.getElem?_append_right (by simp only [List.length_cons, List.length_nil]; omega)]
  simp only [List.length_replicate, List.length_cons, List.length_nil]
  by_cases h : p < 16896
  · rw [List.getElem?_eq_getElem (by simp only [List.length_replicate]; omega),
      List.getElem?_eq_getElem (by simp only [List.length_replicate]; omega)]
    simp only [List.getElem_replicate]
  · rw [List.getElem?_eq_none (by simp only [List.length_replicate]; omega),
      List.getElem?_eq_none (by simp only [List.length_replicate]; omega)]

/-! ## The checksum loop -/

theorem wordSum_succ (contents : List Nat) (n : Nat) :
    wordSum contents (n + 1)
      = wordSum contents n + (if 512 ≤ n ∧ n % 2 = 0 then bigEndianWord contents n else 0) := by
  unfold wordSum
  rw [List.range_succ, List.filter_append, List.map_append, List.sum_append]
  by_cases h : 512 ≤ n ∧ n % 2 = 0
  · simp [h]
  · simp [h]

theorem wordSum_add_two (contents : List Nat) (i : Nat) (h1 : 512 ≤ i) (h2 : i % 2 = 0) :
    wordSum contents (i + 2) = wordSum contents i + bigEndianWord contents i := by
  rw [show i + 2 = (i + 1) + 1 by rfl, wordSum_succ, wordSum_succ,
    if_pos (show 512 ≤ i ∧ i % 2 = 0 from ⟨h1, h2⟩),
    if_neg (show ¬ (512 ≤ i + 1 ∧ (i + 1) % 2 = 0) by omega)]
  rfl

theorem wordSum_of_le (contents : List Nat) (n : Nat) (h : n ≤ 512) : wordSum contents n = 0 := by
  induction n with
  | zero => rfl
  | succ n ih =>
    rw [wordSum_succ, ih (by omega), if_neg (by omega)]

/-- The loop of `calculate_checksum`, entered at an even offset `i ≥ 512` with the
sum of the words below `i`, ends with the sum of the words below the length. -/
theorem calculate_checksum_loop_spec (file : RomFile)
    (hbuf : file.contents.length = file.length) :
    ∀ (n i : Nat), 512 ≤ i → i % 2 = 0 → i + 2 * n = file.length →
      calculate_checksum_loop file i (wordSum file.contents i % 2 ^ 32)
        = some (wordSum file.contents file.length % 2 ^ 32) := by
  intro n
  induction n with
  | zero =>
    intro i _ _ hn
    rw [calculate_checksum_loop, if_neg (by omega), show i = file.length by omega]
  | succ n ih =>
    intro i h1 h2 hn
    have hi : i < file.contents.length := by omega
    have hi1 : i + 1 < file.contents.length := by omega
    rw [calculate_checksum_loop, if_pos (by omega), List.getElem?_eq_getElem hi,
      List.getElem?_eq_getElem hi1]
    simp only [UINT_BITS]
    have hw : (file.contents[i] <<< 8) + file.contents[i + 1]
        = bigEndianWord file.contents i := by
      rw [bigEndianWord, Nat.shiftLeft_eq, List.getD_eq_getElem _ _ hi,
        List.getD_eq_getElem _ _ hi1]
      omega
    rw [hw, Nat.mod_add_mod, ← wordSum_add_two _ _ h1 h2]
    exact ih (i + 2) (by omega) (by omega) (by omega)

/-- The value `calculate_checksum` returns on an image of even length. -/
theorem calculate_checksum_even (file : RomFile) (hbuf : file.contents.length = file.length)
    (heven : file.length % 2 = 0) :
    calculate_checksum file = some (wordSum file.contents file.length % 2 ^ 32) := by
  rw [calculate_checksum, if_neg (by omega), HEADER_SIZE_eq]
  by_cases h : 512 ≤ file.length
  · have := calculate_checksum_loop_spec file hbuf ((file.length - 512) / 2) 512
      (Nat.le_refl _) (by decide) (by omega)
    rw [wordSum_of_le _ 512 (Nat.le_refl _)] at this
    exact this
  · rw [calculate_checksum_loop, if_neg (by omega), wordSum_of_le _ _ (by omega), Nat.zero_mod]

/-- The word sum of the two-word sample image. -/
theorem wordSum_twoWordImage : wordSum twoWordImage.contents twoWordImage.length = 131070 := by
  have h512 : wordSum twoWordImage.contents 512 = 0 := wordSum_of_le _ _ (Nat.le_refl _)
  have hw1 : bigEndianWord twoWordImage.contents 512 = 65535 := by
    simp only [bigEndianWord, twoWordImage, List.getD_eq_getElem?_getD]
    rw [List.getElem?_append_right (by simp only [List.length_replicate]; decide),
      List.getElem?_append_right (by simp only [List.length_replicate]; decide)]
    simp only [List.length_replicate]
    rfl
  have hw2 : bigEndianWord twoWordImage.contents 514 = 65535 := by
    simp only [bigEndianWord, twoWordImage, List.getD_eq_getElem?_getD]
    rw [List.getElem?_append_right (by simp only [List.length_replicate]; decide),
      List.getElem?_append_right (by simp only [List.length_replicate]; decide)]
    simp only [List.length_replicate]
    rfl
  have hlen : twoWordImage.length = 514 + 2 := rfl
  have h514 : wordSum twoWordImage.contents (512 + 2)
      = wordSum twoWordImage.contents 512 + bigEndianWord twoWordImage.contents 512 :=
    wordSum_add_two _ 512 (by decide) (by decide)
  rw [hlen, wordSum_add_two _ 514 (by decide) (by decide), hw2]
  rw [h512, hw1] at h514
  rw [h514]

/-! ## String copies -/

theorem length_fieldBytes (file : List Nat) (off n : Nat) (h : off + n ≤ file.length) :
    (fieldBytes file off n).length = n := by
  simp only [fieldBytes, List.length_take, List.length_drop]
  omega

theorem fieldBytes_succ (file : List Nat) (off n : Nat) (c : Nat) (h : file[off]? = some c) :
    fieldBytes file off (n + 1) = c :: fieldBytes file (off + 1) n := by
  obtain ⟨hlt, hc⟩ := List.getElem?_eq_some.mp h
  simp only [fieldBytes]
  rw [List.drop_eq_getElem_cons hlt, List.take_succ_cons, hc]

theorem cstring_cons_zero (t : List Nat) : cstring (0 :: t) = [] := by
  simp [cstring]

theorem cstring_cons_ne (c : Nat) (t : List Nat) (h : c ≠ 0) :
    cstring (c :: t) = c :: cstring t := by
  simp [cstring, h]

theorem cstring_of_not_mem (s : List Nat) (h : 0 ∉ s) : cstring s = s := by
  induction s with
  | nil => rfl
  | cons c t ih =>
    have hc : c ≠ 0 := fun e => h (by rw [e]; exact List.mem_cons_self 0 t)
    rw [cstring_cons_ne c t hc, ih (fun m => h (List.mem_cons_of_mem c m))]

theorem not_mem_cstring (s : List Nat) : 0 ∉ cstring s := by
  induction s with
  | nil => simp [cstring]
  | cons c t ih =>
    by_cases hc : c = 0
    · rw [hc, cstring_cons_zero]
      exact List.not_mem_nil 0
    · rw [cstring_cons_ne c t hc]
      intro hm
      rcases List.mem_cons.mp hm with h | h
      · exact hc h.symm
      · exact ih h

theorem length_cstring_le (s : List Nat) : (cstring s).length ≤ s.length :=
  (List.takeWhile_prefix _).length_le

/-- What `strncpy` writes when the whole field lies inside the buffer: the bytes
of the field before its first NUL, padded with NUL bytes. -/
theorem strncpy_eq (src : List Nat) :
    ∀ (n off : Nat), off + n ≤ src.length →
      strncpy src off n = some (zeroPadded (cstring (fieldBytes src off n)) n) := by
  intro n
  induction n with
  | zero =>
    intro off _
    simp [strncpy, fieldBytes, cstring, zeroPadded]
  | succ n ih =>
    intro off h
    obtain ⟨c, hc⟩ : ∃ c, src[off]? = some c := ⟨_, List.getElem?_eq_getElem (by omega)⟩
    rw [strncpy, hc, fieldBytes_succ src off n c hc]
    by_cases h0 : c = 0
    · simp only [h0, if_true, cstring_cons_zero, zeroPadded, List.length_nil, Nat.sub_zero,
        List.nil_append]
    · simp only [h0, if_false, ih (off + 1) (by omega), cstring_cons_ne c _ h0, zeroPadded,
        List.length_cons, Nat.succ_sub_succ, List.cons_append]

theorem copy_field_eq (file : List Nat) (off n : Nat) (h : off + n ≤ file.length) :
    copy_field file off n = some (zeroPadded (cstring (fieldBytes file off n)) n ++ [0]) := by
  rw [copy_field, strncpy_eq file n off h]

theorem zeroPadded_of_length (s : List Nat) (n : Nat) (h : s.length = n) : zeroPadded s n = s := by
  simp [zeroPadded, h]

/-- The record `read_header` returns on a buffer of at least 512 bytes. -/
theorem read_header_eq (file : List Nat) (h : 512 ≤ file.length) :
    read_header file = some
      { console := zeroPadded (cstring (fieldBytes file 0x100 16)) 16 ++ [0],
        company := zeroPadded (cstring (fieldBytes file 0x110 8)) 8 ++ [0],
        copyright := zeroPadded (cstring (fieldBytes file 0x118 8)) 8 ++ [0],
        local_name := zeroPadded (cstring (fieldBytes file 0x120 48)) 48 ++ [0],
        intl_name := zeroPadded (cstring (fieldBytes file 0x150 48)) 48 ++ [0],
        product_type := zeroPadded (cstring (fieldBytes file 0x180 2)) 2 ++ [0],
        product_code := zeroPadded (cstring (fieldBytes file 0x183 11)) 11 ++ [0],
        io_devices := zeroPadded (cstring (fieldBytes file 0x190 16)) 16 ++ [0],
        regions := zeroPadded (cstring (fieldBytes file 0x1f0 3)) 3 ++ [0],
        stored_checksum := ((file.getD 0x18e 0 % 256) <<< 8) ||| (file.getD 0x18f 0 % 256) } := by
  have hhi : file[0x18e]? = some (file.getD 0x18e 0) := by
    rw [List.getD_eq_getElem?_getD, List.getElem?_eq_getElem (by omega)]
    rfl
  have hlo : file[0x18e + 1]? = some (file.getD 0x18f 0) := by
    rw [List.getD_eq_getElem?_getD, List.getElem?_eq_getElem (by omega)]
    rfl
  simp only [read_header, CONSOLE_OFFSET, CONSOLE_LENGTH, COMPANY_OFFSET, COMPANY_LENGTH,
    COPYRIGHT_OFFSET, COPYRIGHT_LENGTH, LOCAL_NAME_OFFSET, INTL_NAME_OFFSET, NAME_LENGTH,
    PRODUCT_TYPE_OFFSET, PRODUCT_TYPE_LENGTH, PRODUCT_CODE_OFFSET, PRODUCT_CODE_LENGTH,
    IO_DEVICES_OFFSET, IO_DEVICES_LENGTH, REGIONS_OFFSET, REGIONS_LENGTH, CHECKSUM_OFFSET]
  rw [copy_field_eq file 0x100 16 (by omega), copy_field_eq file 0x110 8 (by omega),
    copy_field_eq file 0x118 8 (by omega), copy_field_eq file 0x120 48 (by omega),
    copy_field_eq file 0x150 48 (by omega), copy_field_eq file 0x180 2 (by omega),
    copy_field_eq file 0x183 11 (by omega), copy_field_eq file 0x190 16 (by omega),
    copy_field_eq file 0x1f0 3 (by omega), hhi, hlo]
  rfl

/-- Two bytes combined with `<< 8` and `|` make the big-endian 16-bit number. -/
theorem shift_or_eq (hi lo : Nat) (hhi : hi < 256) (hlo : lo < 256) :
    ((hi % 256) <<< 8) ||| (lo % 256) = 256 * hi + lo := by
  rw [Nat.mod_eq_of_lt hhi, Nat.mod_eq_of_lt hlo, Nat.shiftLeft_eq, Nat.mul_comm]
  exact (Nat.mul_add_lt_is_or (show lo < 2 ^ 8 from hlo) hi).symm

/-! ## Records produced by `read_header` -/

/-- Whatever `strncpy` writes is a run of nonzero bytes followed by zero bytes. -/
theorem strncpy_shape (src : List Nat) :
    ∀ (n off : Nat) (out : List Nat), strncpy src off n = some out →
      ∃ s, 0 ∉ s ∧ s.length ≤ n ∧ out = s ++ List.replicate (n - s.length) 0 := by
  intro n
  induction n with
  | zero =>
    intro off out h
    rw [strncpy] at h
    exact ⟨[], List.not_mem_nil 0, Nat.le_refl 0, by simpa using h.symm⟩
  | succ n ih =>
    intro off out h
    rw [strncpy] at h
    cases hc : src[off]? with
    | none => rw [hc] at h; exact absurd h (by simp)
    | some c =>
      rw [hc] at h
      by_cases h0 : c = 0
      · simp only [h0, if_true, Option.some.injEq] at h
        exact ⟨[], List.not_mem_nil 0, Nat.zero_le _, by simpa using h.symm⟩
      · simp only [h0, if_false] at h
        cases hr : strncpy src (off + 1) n with
        | none => rw [hr] at h; exact absurd h (by simp)
        | some rest =>
          rw [hr] at h
          obtain ⟨s, hs0, hsl, hs⟩ := ih (off + 1) rest hr
          refine ⟨c :: s, ?_, by simpa using hsl, ?_⟩
          · intro hm
            rcases List.mem_cons.mp hm with e | e
            · exact h0 e.symm
            · exact hs0 e
          · simp only [Option.some.injEq] at h
            rw [← h, hs]
            simp

theorem copy_field_shape (file : List Nat) (off n : Nat) (a : List Nat)
    (h : copy_field file off n = some a) :
    ∃ s, 0 ∉ s ∧ s.length ≤ n ∧ a = s ++ List.replicate (n + 1 - s.length) 0 := by
  rw [copy_field] at h
  cases hc : strncpy file off n with
  | none => rw [hc] at h; exact absurd h (by simp)
  | some c =>
    rw [hc] at h
    obtain ⟨s, hs0, hsl, hs⟩ := strncpy_shape file n off c hc
    refine ⟨s, hs0, hsl, ?_⟩
    simp only [Option.some.injEq] at h
    rw [← h, hs, List.append_assoc, show n + 1 - s.length = (n - s.length) + 1 by omega,
      List.replicate_succ']

/-- The company and copyright arrays of a record that `read_header` returned. -/
theorem read_header_shape (file : List Nat) (rom : RomHeader)
    (h : read_header file = some rom) :
    (∃ s, 0 ∉ s ∧ s.length ≤ 8 ∧ rom.company = s ++ List.replicate (8 + 1 - s.length) 0) ∧
    (∃ s, 0 ∉ s ∧ s.length ≤ 8 ∧ rom.copyright = s ++ List.replicate (8 + 1 - s.length) 0) := by
  simp only [read_header, bind, Option.bind_eq_some, Option.some.injEq] at h
  obtain ⟨console, -, company, hco, copyright, hcp, _, -, _, -, _, -, _, -, _, -, _, -,
    _, -, _, -, hrom⟩ := h
  subst hrom
  exact ⟨copy_field_shape file _ _ company hco, copy_field_shape file _ _ copyright hcp⟩

/-! ## Substring search -/

/-- The search `strstr_from` finds a match exactly when the needle occurs in the
list. -/
theorem strstr_from_isSome (needle : List Nat) :
    ∀ l : List Nat, (strstr_from needle l).isSome = true ↔ needle <:+: l := by
  intro l
  induction l with
  | nil =>
    rw [strstr_from]
    by_cases h : needle.isPrefixOf [] = true
    · rw [if_pos h]
      exact ⟨fun _ => (List.isPrefixOf_iff_prefix.mp h).isInfix, fun _ => rfl⟩
    · rw [if_neg h]
      refine ⟨fun e => absurd e (by simp), fun e => ?_⟩
      rw [List.infix_nil] at e
      exact absurd (by rw [e]; rfl) h
  | cons c rest ih =>
    rw [strstr_from, List.infix_cons_iff]
    by_cases h : needle.isPrefixOf (c :: rest) = true
    · rw [if_pos h]
      exact ⟨fun _ => Or.inl (List.isPrefixOf_iff_prefix.mp h), fun _ => rfl⟩
    · rw [if_neg h]
      have hp : ¬ needle <+: c :: rest := fun e => h (List.isPrefixOf_iff_prefix.mpr e)
      cases hr : strstr_from needle rest with
      | none =>
        rw [hr] at ih
        exact ⟨fun e => absurd e (by simp), fun e => e.elim (fun e => absurd e hp)
          (fun e => absurd (ih.mpr e) (by simp))⟩
      | some k =>
        rw [hr] at ih
        exact ⟨fun _ => Or.inr (ih.mp rfl), fun _ => rfl⟩

theorem infix_concat_zero (p l : List Nat) (h0 : 0 ∉ p) (hne : p ≠ []) :
    p <:+: l ++ [0] ↔ p <:+: l := by
  rw [List.infix_concat_iff]
  constructor
  · rintro (h | h)
    · rcases List.suffix_concat_iff.mp h with e | ⟨t, e, -⟩
      · exact absurd e hne
      · exact absurd (by rw [e]; simp) h0
    · exact h
  · exact Or.inr

theorem infix_append_zeros (p s : List Nat) (h0 : 0 ∉ p) (hne : p ≠ []) (m : Nat) :
    p <:+: s ++ List.replicate m 0 ↔ p <:+: s := by
  induction m with
  | zero => simp
  | succ m ih =>
    rw [List.replicate_succ', ← List.append_assoc, infix_concat_zero p _ h0 hne, ih]

theorem cstring_append_zero (s t : List Nat) (h0 : 0 ∉ s) : cstring (s ++ 0 :: t) = s := by
  induction s with
  | nil => exact cstring_cons_zero t
  | cons c r ih =>
    have hc : c ≠ 0 := fun e => h0 (by rw [e]; exact List.mem_cons_self 0 r)
    rw [List.cons_append, cstring_cons_ne c _ hc, ih (fun m => h0 (List.mem_cons_of_mem c m))]

/-- The char array `s ++ zeros`, with at least one zero: `strstr` finds a pattern
without NUL in it exactly when the pattern occurs in the first `n` chars. -/
theorem strstr_isSome_eq (s p : List Nat) (m : Nat) (hs : 0 ∉ s) (h0 : 0 ∉ p) (hne : p ≠ []) :
    (strstr (s ++ List.replicate m 0 ++ [0]) p).isSome
      = decide (p <:+: s ++ List.replicate m 0) := by
  have hc : cstring (s ++ List.replicate m 0 ++ [0]) = s := by
    rw [List.append_assoc, ← List.replicate_succ', List.replicate_succ]
    exact cstring_append_zero s _ hs
  rw [strstr, hc]
  by_cases h : p <:+: s
  · rw [(strstr_from_isSome p s).mpr h, decide_eq_true ((infix_append_zeros p s h0 hne m).mpr h)]
  · have h1 : ¬ (strstr_from p s).isSome = true := fun e => h ((strstr_from_isSome p s).mp e)
    rw [Bool.not_eq_true] at h1
    rw [h1, decide_eq_false (fun e => h ((infix_append_zeros p s h0 hne m).mp e))]

/-! ## The lowercase loop -/

theorem lower_char_eq (c : Nat) : lower_char c = asciiLower c := by
  unfold lower_char asciiLower
  by_cases h : 65 ≤ c ∧ c ≤ 90
  · rw [if_pos h, if_pos h]
    obtain ⟨h1, h2⟩ := h
    interval_cases c <;> rfl
  · rw [if_neg h, if_neg h]

theorem asciiLower_ne_zero (c : Nat) (h : c ≠ 0) : asciiLower c ≠ 0 := by
  unfold asciiLower
  split <;> omega

theorem lower_loop_eq (src : List Nat) :
    ∀ (n i : Nat), i + n ≤ src.length →
      lower_loop src i n = some ((fieldBytes src i n).map asciiLower) := by
  intro n
  induction n with
  | zero =>
    intro i _
    simp [lower_loop, fieldBytes]
  | succ n ih =>
    intro i h
    obtain ⟨c, hc⟩ : ∃ c, src[i]? = some c := ⟨_, List.getElem?_eq_getElem (by omega)⟩
    rw [lower_loop, hc, fieldBytes_succ src i n c hc]
    simp only [ih (i + 1) (by omega), List.map_cons, lower_char_eq]

/-! ## The rule chain of `get_company` -/

theorem firstMatch_nil (field : List Nat) : firstMatch [] field = "Unknown" := rfl

theorem firstMatch_cons (r : String × String) (rest : List (String × String))
    (field : List Nat) :
    firstMatch (r :: rest) field
      = if decide (bytes r.1 <:+: field) then r.2 else firstMatch rest field := by
  unfold firstMatch
  rw [List.find?_cons]
  cases decide (bytes r.1 <:+: field) <;> rfl

theorem ite_or_bool (a b : Bool) (n x : String) :
    (if (a || b) = true then n else x) = if a = true then n else if b = true then n else x := by
  cases a <;> cases b <;> rfl

set_option maxRecDepth 100000 in
set_option maxHeartbeats 1600000 in
/-- On a record whose company and copyright arrays are runs of nonzero bytes
followed by zero bytes, `get_company` returns the name of the first rule of the
table whose pattern occurs in the lowercased 8-byte company field. -/
theorem get_company_eq (rom : RomHeader)
    (hco : ∃ s, 0 ∉ s ∧ s.length ≤ 8 ∧ rom.company = s ++ List.replicate (8 + 1 - s.length) 0)
    (hcp : ∃ s, 0 ∉ s ∧ s.length ≤ 8 ∧ rom.copyright = s ++ List.replicate (8 + 1 - s.length) 0) :
    get_company rom = some (firstMatch companyRules ((rom.company.take 8).map asciiLower)) := by
  obtain ⟨s, hs0, hsl, hs⟩ := hco
  obtain ⟨k, hk0, hkl, hk⟩ := hcp
  have htake : rom.company.take 8 = s ++ List.replicate (8 - s.length) 0 := by
    rw [hs, show 8 + 1 - s.length = (8 - s.length) + 1 by omega, List.replicate_succ',
      ← List.append_assoc]
    exact List.take_left' (by simp; omega)
  have hlen : 0 + 8 ≤ rom.company.length := by
    rw [hs]; simp; omega
  have hfield : (rom.company.take 8).map asciiLower
      = s.map asciiLower ++ List.replicate (8 - s.length) 0 := by
    rw [htake, List.map_append, List.map_replicate]
    rfl
  have hs' : 0 ∉ s.map asciiLower := by
    intro hm
    obtain ⟨c, hc, e⟩ := List.mem_map.mp hm
    exact asciiLower_ne_zero c (fun e0 => hs0 (e0 ▸ hc)) e
  have hflen : (s.map asciiLower ++ List.replicate (8 - s.length) 0).length = 8 := by
    simp; omega
  have hcopy : (strstr rom.copyright (bytes "t-snk 95-feb")).isSome
      = decide (bytes "t-snk 95-feb" <:+: s.map asciiLower ++ List.replicate (8 - s.length) 0) := by
    have hc : cstring rom.copyright = k := by
      rw [hk, show 8 + 1 - k.length = (8 - k.length) + 1 by omega, List.replicate_succ]
      exact cstring_append_zero k _ hk0
    have hl : (bytes "t-snk 95-feb").length = 12 := by decide
    have h1 : ¬ (strstr_from (bytes "t-snk 95-feb") k).isSome = true := by
      intro e
      have := ((strstr_from_isSome _ k).mp e).length_le
      omega
    rw [Bool.not_eq_true] at h1
    rw [strstr, hc, h1, decide_eq_false]
    intro e
    have := e.length_le
    omega
  unfold get_company
  rw [show COMPANY_LENGTH = 8 from rfl, lower_loop_eq rom.company 8 0 hlen]
  simp only [fieldBytes, List.drop_zero, hfield]
  have key : ∀ p : List Nat, 0 ∉ p → p ≠ [] →
      (strstr (s.map asciiLower ++ List.replicate (8 - s.length) 0 ++ [0]) p).isSome
        = decide (p <:+: s.map asciiLower ++ List.replicate (8 - s.length) 0) :=
    fun p h0 hne => strstr_isSome_eq (s.map asciiLower) p (8 - s.length) hs' h0 hne
  rw [hcopy, ite_or_bool,
    key (bytes "sega") (by decide) (by decide),
    key (bytes "acld") (by decide) (by decide),
    key (bytes "asci") (by decide) (by decide),
    key (bytes "inf") (by decide) (by decide),
    key (bytes "rsi") (by decide) (by decide),
    key (bytes "trec") (by decide) (by decide),
    key (bytes "vrgn") (by decide) (by decide),
    key (bytes "wstn") (by decide) (by decide),
    key (bytes "100") (by decide) (by decide),
    key (bytes "101") (by decide) (by decide),
    key (bytes "112") (by decide) (by decide),
    key (bytes "113") (by decide) (by decide),
    key (bytes "119") (by decide) (by decide),
    key (bytes "120") (by decide) (by decide),
    key (bytes "125") (by decide) (by decide),
    key (bytes "130") (by decide) (by decide),
    key (bytes "132") (by decide) (by decide),
    key (bytes "144") (by decide) (by decide),
    key (bytes "151") (by decide) (by decide),
    key (bytes "161") (by decide) (by decide),
    key (bytes "239") (by decide) (by decide),
    key (bytes "10") (by decide) (by decide),
    key (bytes "11") (by decide) (by decide),
    key (bytes "12") (by decide) (by decide),
    key (bytes "13") (by decide) (by decide),
    key (bytes "14") (by decide) (by decide),
    key (bytes "15") (by decide) (by decide),
    key (bytes "16") (by decide) (by decide),
    key (bytes "17") (by decide) (by decide),
    key (bytes "18") (by decide) (by decide),
    key (bytes "19") (by decide) (by decide),
    key (bytes "20") (by decide) (by decide),
    key (bytes "22") (by decide) (by decide),
    key (bytes "23") (by decide) (by decide),
    key (bytes "24") (by decide) (by decide),
    key (bytes "29") (by decide) (by decide),
    key (bytes "32") (by decide) (by decide),
    key (bytes "33") (by decide) (by decide),
    key (bytes "35") (by decide) (by decide),
    key (bytes "36") (by decide) (by decide),
    key (bytes "40") (by decide) (by decide),
    key (bytes "42") (by decide) (by decide),
    key (bytes "43") (by decide) (by decide),
    key (bytes "45") (by decide) (by decide),
    key (bytes "47") (by decide) (by decide),
    key (bytes "48") (by decide) (by decide),
    key (bytes "49") (by decide) (by decide),
    key (bytes "50") (by decide) (by decide),
    key (bytes "56") (by decide) (by decide),
    key (bytes "58") (by decide) (by decide),
    key (bytes "60") (by decide) (by decide),
    key (bytes "69") (by decide) (by decide),
    key (bytes "70") (by decide) (by decide),
    key (bytes "73") (by decide) (by decide),
    key (bytes "74") (by decide) (by decide),
    key (bytes "76") (by decide) (by decide),
    key (bytes "79") (by decide) (by decide),
    key (bytes "81") (by decide) (by decide),
    key (bytes "83") (by decide) (by decide),
    key (bytes "86") (by decide) (by decide),
    key (bytes "93") (by decide) (by decide),
    key (bytes "95") (by decide) (by decide),
    key (bytes "97") (by decide) (by decide)]
  simp only [companyRules, firstMatch_cons, firstMatch_nil]

/-! ## The value of `validate_header` -/

theorem cstring_zeroPadded (s : List Nat) (n : Nat) :
    cstring (zeroPadded (cstring s) n ++ [0]) = cstring s := by
  rw [zeroPadded, List.append_assoc, ← List.replicate_succ', List.replicate_succ]
  exact cstring_append_zero _ _ (not_mem_cstring s)

theorem strstr_from_isNone (needle l : List Nat) :
    (strstr_from needle l).isNone = !decide (needle <:+: l) := by
  by_cases h : needle <:+: l
  · have := (strstr_from_isSome needle l).mpr h
    rw [decide_eq_true h]
    cases hs : strstr_from needle l with
    | none => rw [hs] at this; exact absurd this (by simp)
    | some k => rfl
  · have : ¬ (strstr_from needle l).isSome = true := fun e => h ((strstr_from_isSome needle l).mp e)
    rw [decide_eq_false h]
    cases hs : strstr_from needle l with
    | none => rfl
    | some k => rw [hs] at this; exact absurd rfl this

/-- The value `validate_header` returns on a buffer that holds the console field:
true when one of the two substrings is missing from the C string of the field. -/
theorem validate_header_value (file : List Nat) (h : 0x110 ≤ file.length) :
    validate_header file
      = some (!decide (bytes "SEGA " <:+: cstring (fieldBytes file 0x100 16))
        || !decide (bytes " SEGA" <:+: cstring (fieldBytes file 0x100 16))) := by
  rw [validate_header, show CONSOLE_OFFSET = 0x100 from rfl, show CONSOLE_LENGTH = 16 from rfl,
    copy_field_eq file 0x100 16 (by omega)]
  simp only [strstr, cstring_zeroPadded, strstr_from_isNone]

/-! ## Reads of the header parser -/

theorem fieldBytes_take (file : List Nat) (m off n : Nat) (h : off + n ≤ m) :
    fieldBytes (file.take m) off n = fieldBytes file off n := by
  simp only [fieldBytes, List.drop_take, List.take_take]
  congr 1
  omega

theorem getD_take (file : List Nat) (m i : Nat) (h : i < m) :
    (file.take m).getD i 0 = file.getD i 0 := by
  rw [List.getD_eq_getElem?_getD, List.getD_eq_getElem?_getD, List.getElem?_take_of_lt h]

/-- The record `read_header` returns on a buffer of at least `0x1f3` bytes. -/
theorem read_header_eq_of_le (file : List Nat) (h : 0x1f3 ≤ file.length) :
    read_header file = some
      { console := zeroPadded (cstring (fieldBytes file 0x100 16)) 16 ++ [0],
        company := zeroPadded (cstring (fieldBytes file 0x110 8)) 8 ++ [0],
        copyright := zeroPadded (cstring (fieldBytes file 0x118 8)) 8 ++ [0],
        local_name := zeroPadded (cstring (fieldBytes file 0x120 48)) 48 ++ [0],
        intl_name := zeroPadded (cstring (fieldBytes file 0x150 48)) 48 ++ [0],
        product_type := zeroPadded (cstring (fieldBytes file 0x180 2)) 2 ++ [0],
        product_code := zeroPadded (cstring (fieldBytes file 0x183 11)) 11 ++ [0],
        io_devices := zeroPadded (cstring (fieldBytes file 0x190 16)) 16 ++ [0],
        regions := zeroPadded (cstring (fieldBytes file 0x1f0 3)) 3 ++ [0],
        stored_checksum := ((file.getD 0x18e 0 % 256) <<< 8) ||| (file.getD 0x18f 0 % 256) } := by
  have hhi : file[0x18e]? = some (file.getD 0x18e 0) := by
    rw [List.getD_eq_getElem?_getD, List.getElem?_eq_getElem (by omega)]
    rfl
  have hlo : file[0x18e + 1]? = some (file.getD 0x18f 0) := by
    rw [List.getD_eq_getElem?_getD, List.getElem?_eq_getElem (by omega)]
    rfl
  simp only [read_header, CONSOLE_OFFSET, CONSOLE_LENGTH, COMPANY_OFFSET, COMPANY_LENGTH,
    COPYRIGHT_OFFSET, COPYRIGHT_LENGTH, LOCAL_NAME_OFFSET, INTL_NAME_OFFSET, NAME_LENGTH,
    PRODUCT_TYPE_OFFSET, PRODUCT_TYPE_LENGTH, PRODUCT_CODE_OFFSET, PRODUCT_CODE_LENGTH,
    IO_DEVICES_OFFSET, IO_DEVICES_LENGTH, REGIONS_OFFSET, REGIONS_LENGTH, CHECKSUM_OFFSET]
  rw [copy_field_eq file 0x100 16 (by omega), copy_field_eq file 0x110 8 (by omega),
    copy_field_eq file 0x118 8 (by omega), copy_field_eq file 0x120 48 (by omega),
    copy_field_eq file 0x150 48 (by omega), copy_field_eq file 0x180 2 (by omega),
    copy_field_eq file 0x183 11 (by omega), copy_field_eq file 0x190 16 (by omega),
    copy_field_eq file 0x1f0 3 (by omega), hhi, hlo]
  rfl

/-! ## Names the table can return -/

set_option maxRecDepth 100000 in
/-- No rule of the table whose name is `"Hi-Tech Entertainment"` has a pattern of
at most 8 bytes. -/
theorem hitech_pattern_long :
    ∀ r ∈ companyRules, r.2 = "Hi-Tech Entertainment" → 8 < (bytes r.1).length := by
  decide

theorem firstMatch_ne_hitech (field : List Nat) (hf : field.length ≤ 8) :
    firstMatch companyRules field ≠ "Hi-Tech Entertainment" := by
  unfold firstMatch
  cases hfind : companyRules.find? (fun r => decide (bytes r.1 <:+: field)) with
  | none => decide
  | some r =>
    intro e
    have hmem : r ∈ companyRules := List.mem_of_find?_eq_some hfind
    have hp := List.find?_some hfind
    have hlen := (of_decide_eq_true hp).length_le
    have := hitech_pattern_long r hmem e
    omega

/-! ## `interleave_file` on an image that ends in a partial block -/

/-- On an image of more than one block and at most one block and a half,
`interleave_file` is undefined: the second run of the inner loop stores at
`512 + 16384 + 8192`, outside the converted buffer. -/
theorem interleave_file_partial_block (junk : Nat → Nat) (file : RomFile)
    (hbuf : file.contents.length = file.length) (h1 : 16384 < file.length)
    (h2 : file.length ≤ 16384 + 8192) :
    interleave_file junk file = none := by
  have hm : (malloc junk (file.length + 512)).length = file.length + 512 := length_malloc _ _
  have hloop : ∀ converted : List Nat, converted.length = file.length + 512 →
      interleave_loop file.contents file.length 0 converted = none := by
    intro converted hc
    obtain ⟨out1, hb1, hb2, -⟩ :=
      interleave_block_spec file.contents 0 8192 0 converted (by omega) (by omega) (by omega)
    obtain ⟨e, he⟩ : ∃ e, file.contents[16384 + 0]? = some e :=
      ⟨_, List.getElem?_eq_getElem (by omega)⟩
    rw [interleave_loop, if_pos (by omega)]
    simp only [hb1, BLOCK_SIZE_eq]
    rw [interleave_loop, if_pos (by omega), interleave_block, BLOCK_SIZE_half,
      if_pos (by omega)]
    simp only [Nat.zero_add, he, HEADER_SIZE_eq]
    rw [store_eq_none _ (by omega)]
  rw [interleave_file, if_neg (by rw [BLOCK_SIZE_eq]; omega)]
  simp only [HEADER_SIZE_eq, BLOCK_SIZE_eq]
  rw [store_eq_some _ (by rw [hm]; omega)]
  simp only []
  rw [store_eq_some _ (by simp [hm])]
  simp only []
  rw [store_eq_some _ (by simp [hm])]
  simp only []
  rw [store_eq_some _ (by simp [hm])]
  simp only []
  rw [store_eq_some _ (by simp [hm])]
  simp only []
  rw [hloop _ (by simp [hm])]

/-! ## Loading a file -/

/-- The value of `calculate_checksum` on a struct whose length field is the size
of its buffer. -/
theorem calculate_checksum_eq (file : RomFile) (hbuf : file.contents.length = file.length) :
    calculate_checksum file = some (checksumOf file.contents) := by
  unfold checksumOf
  rw [hbuf]
  by_cases h : file.length % 2 = 0
  · rw [if_pos h, calculate_checksum_even file hbuf h]
  · rw [if_neg h, calculate_checksum, if_pos h]

/-- On a file of at least 11 bytes the signature test reads inside the buffer and
does not depend on what lies after it. -/
theorem smd_signature_eq (beyond : Nat → Nat) (bytes : List Nat) (h : 11 ≤ bytes.length) :
    smd_signature beyond bytes = if hasSmdSignature bytes then 1 else 0 := by
  obtain ⟨b1, h1⟩ : ∃ b, bytes[1]? = some b := ⟨_, List.getElem?_eq_getElem (by omega)⟩
  obtain ⟨b8, h8⟩ : ∃ b, bytes[8]? = some b := ⟨_, List.getElem?_eq_getElem (by omega)⟩
  obtain ⟨b9, h9⟩ : ∃ b, bytes[9]? = some b := ⟨_, List.getElem?_eq_getElem (by omega)⟩
  obtain ⟨b10, h10⟩ : ∃ b, bytes[10]? = some b := ⟨_, List.getElem?_eq_getElem (by omega)⟩
  simp only [smd_signature, signature_byte, hasSmdSignature, h1, h8, h9, h10,
    Option.some.injEq]
  by_cases c1 : b1 = 3
  · by_cases c8 : b8 = 170
    · by_cases c9 : b9 = 187
      · by_cases c10 : b10 = 6
        · simp [c1, c8, c9, c10]
        · simp [c1, c8, c9, c10]
      · simp [c1, c8, c9]
    · simp [c1, c8]
  · simp [c1]

/-- The struct `open_file` returns: the call is defined on every file. -/
theorem open_file_eq (beyond : Nat → Nat) (file_name : String) (bytes : List Nat) :
    open_file beyond file_name bytes = some
      { contents := bytes, name := file_name, length := bytes.length,
        format := smd_signature beyond bytes,
        calculated_checksum := checksumOf bytes } := by
  rw [open_file]
  simp only []
  rw [calculate_checksum_eq _ rfl]

/-! ## Size checks -/

/-- Once the size checks are passed, `print_header_info` reports no size error. -/
theorem print_header_info_of_image (beyond junk : Nat → Nat) (file_name : String)
    (bytes : List Nat)
    (himg : inspect_image beyond junk file_name bytes = none ∨
      ∃ file, inspect_image beyond junk file_name bytes = some (Except.ok file))
    (kind : ErrorKind) (hk : kind ≠ ErrorKind.invalid_header) :
    print_header_info beyond junk file_name bytes ≠ some (Except.error kind) := by
  rcases himg with hi | ⟨file, hi⟩
  · rw [print_header_info, hi]
    simp
  · rw [print_header_info, hi]
    simp only []
    cases validate_header file.contents with
    | none => simp
    | some b =>
      cases b with
      | false => simpa using Ne.symm hk
      | true =>
        simp only []
        cases read_header file.contents with
        | none => simp
        | some rom =>
          simp only []
          cases get_company rom <;> simp

/-- The size checks of `print_header_info`: the two size reports depend on the
length of the file alone. -/
theorem print_header_info_gating (beyond junk : Nat → Nat) (file_name : String)
    (bytes : List Nat) :
    (print_header_info beyond junk file_name bytes = some (Except.error ErrorKind.too_small)
      ↔ bytes.length < 512) ∧
    (512 ≤ bytes.length →
      (print_header_info beyond junk file_name bytes = some (Except.error ErrorKind.too_large)
        ↔ 5 * 1024 * 1024 < bytes.length)) := by
  have hopen := open_file_eq beyond file_name bytes
  have hmax : MAX_FILE_SIZE = 5 * 1024 * 1024 := rfl
  by_cases h1 : bytes.length < 512
  · have : print_header_info beyond junk file_name bytes
        = some (Except.error ErrorKind.too_small) := by
      simp only [print_header_info, inspect_image, hopen, HEADER_SIZE_eq, if_pos h1]
    exact ⟨⟨fun _ => h1, fun _ => this⟩, fun h2 => absurd h1 (by omega)⟩
  · by_cases h2 : 5 * 1024 * 1024 < bytes.length
    · have : print_header_info beyond junk file_name bytes
          = some (Except.error ErrorKind.too_large) := by
        simp only [print_header_info, inspect_image, hopen, HEADER_SIZE_eq, if_neg h1, hmax,
          gt_iff_lt, if_pos h2]
      refine ⟨⟨fun e => ?_, fun e => absurd e h1⟩, fun _ => ⟨fun _ => h2, fun _ => this⟩⟩
      rw [this] at e
      exact absurd e (by simp)
    · have himg : inspect_image beyond junk file_name bytes = none ∨
          ∃ file, inspect_image beyond junk file_name bytes = some (Except.ok file) := by
        simp only [inspect_image, hopen, HEADER_SIZE_eq, if_neg h1, hmax, gt_iff_lt, if_neg h2]
        split
        · cases deinterleave_file junk _ with
          | none => exact Or.inl rfl
          | some converted => exact Or.inr ⟨converted, rfl⟩
        · exact Or.inr ⟨_, rfl⟩
      have key := print_header_info_of_image beyond junk file_name bytes himg
      exact ⟨⟨fun e => absurd e (key _ (by decide)), fun e => absurd e h1⟩,
        fun _ => ⟨fun e => absurd e (key _ (by decide)), fun e => absurd e h2⟩⟩

/-- The size checks of `convert_file`: the two size reports depend on the length
of the file alone. -/
theorem convert_file_gating (beyond junk : Nat → Nat) (file_name : String)
    (bytes : List Nat) :
    (convert_file beyond junk file_name bytes = some (Except.error ErrorKind.too_small)
      ↔ bytes.length < 512 + 16384) ∧
    (512 + 16384 ≤ bytes.length →
      (convert_file beyond junk file_name bytes = some (Except.error ErrorKind.too_large)
        ↔ 5 * 1024 * 1024 < bytes.length)) := by
  have hopen := open_file_eq beyond file_name bytes
  have hmax : MAX_FILE_SIZE = 5 * 1024 * 1024 := rfl
  by_cases h1 : bytes.length < 512 + 16384
  · have : convert_file beyond junk file_name bytes
        = some (Except.error ErrorKind.too_small) := by
      simp only [convert_file, hopen, HEADER_SIZE_eq, BLOCK_SIZE_eq, if_pos h1]
    exact ⟨⟨fun _ => h1, fun _ => this⟩, fun h2 => absurd h1 (by omega)⟩
  · by_cases h2 : 5 * 1024 * 1024 < bytes.length
    · have : convert_file beyond junk file_name bytes
          = some (Except.error ErrorKind.too_large) := by
        simp only [convert_file, hopen, HEADER_SIZE_eq, BLOCK_SIZE_eq, if_neg h1, hmax,
          gt_iff_lt, if_pos h2]
      refine ⟨⟨fun e => ?_, fun e => absurd e h1⟩, fun _ => ⟨fun _ => h2, fun _ => this⟩⟩
      rw [this] at e
      exact absurd e (by simp)
    · have key : ∀ kind, kind ≠ ErrorKind.invalid_header →
          convert_file beyond junk file_name bytes ≠ some (Except.error kind) := by
        intro kind hk
        simp only [convert_file, hopen, HEADER_SIZE_eq, BLOCK_SIZE_eq, if_neg h1, hmax,
          gt_iff_lt, if_neg h2]
        cases (if smd_signature beyond bytes = BIN_FILE then
            interleave_file junk
              { contents := bytes, name := file_name, length := bytes.length,
                format := smd_signature beyond bytes,
                calculated_checksum := checksumOf bytes }
          else
            deinterleave_file junk
              { contents := bytes, name := file_name, length := bytes.length,
                format := smd_signature beyond bytes,
                calculated_checksum := checksumOf bytes }) with
        | none => simp
        | some converted =>
          simp only []
          cases validate_header converted.contents with
          | none => simp
          | some b =>
            cases b with
            | false => simpa using Ne.symm hk
            | true =>
              simp only []
              cases write_file converted <;> simp
      exact ⟨⟨fun e => absurd e (key _ (by decide)), fun e => absurd e h1⟩,
        fun _ => ⟨fun e => absurd e (key _ (by decide)), fun e => absurd e h2⟩⟩

/-! ## The image that `print_header_info` inspects -/

/-- An input with the smd signature that is shorter than the header and one block
reaches `validate_header` unchanged: `deinterleave_file` returns at once. -/
theorem inspect_image_smd_short (beyond junk : Nat → Nat) (file_name : String)
    (bytes : List Nat) (hsig : hasSmdSignature bytes) (h1 : 512 ≤ bytes.length)
    (h2 : bytes.length < 512 + 16384) :
    inspect_image beyond junk file_name bytes = some (Except.ok
      { contents := bytes, name := file_name, length := bytes.length, format := SMD_FILE,
        calculated_checksum := checksumOf bytes }) := by
  have hmax : ¬ bytes.length > MAX_FILE_SIZE := by
    rw [show MAX_FILE_SIZE = 5 * 1024 * 1024 from rfl]; omega
  rw [inspect_image, open_file_eq beyond file_name bytes,
    smd_signature_eq beyond bytes (by omega)]
  simp only [if_pos hsig, HEADER_SIZE_eq, if_neg (show ¬ bytes.length < 512 by omega), hmax,
    if_false, show (1 : Nat) = SMD_FILE from rfl, if_true]
  rw [deinterleave_file, if_pos (by rw [HEADER_SIZE_eq, BLOCK_SIZE_eq]; exact h2)]

/-- An input with the smd signature made of the header and `k ≥ 1` whole blocks
reaches `validate_header` deinterleaved. -/
theorem inspect_image_smd_blocks (beyond junk : Nat → Nat) (file_name : String)
    (bytes : List Nat) (k : Nat) (hsig : hasSmdSignature bytes) (hk : 1 ≤ k)
    (hlen : bytes.length = 512 + k * 16384) (hmax : bytes.length ≤ 5 * 1024 * 1024) :
    ∃ out, inspect_image beyond junk file_name bytes = some (Except.ok out) ∧
      deinterleave_file junk
        { contents := bytes, name := file_name, length := bytes.length, format := SMD_FILE,
          calculated_checksum := checksumOf bytes } = some out ∧
      out.length = bytes.length - 512 ∧ out.contents.length = bytes.length - 512 ∧
      out.format = BIN_FILE ∧ out.calculated_checksum = checksumOf bytes ∧
      ∀ p, p < bytes.length - 512 → out.contents[p]? = deinterleavedAt bytes p := by
  have hmax2 : ¬ bytes.length > MAX_FILE_SIZE := by
    rw [show MAX_FILE_SIZE = 5 * 1024 * 1024 from rfl]; omega
  obtain ⟨out, ho, hol, hoc, hof, -, hock, hop⟩ := deinterleave_file_spec junk
    { contents := bytes, name := file_name, length := bytes.length, format := SMD_FILE,
      calculated_checksum := checksumOf bytes } k hk hlen rfl
  refine ⟨out, ?_, ho, hol, hoc, hof, hock, hop⟩
  rw [inspect_image, open_file_eq beyond file_name bytes,
    smd_signature_eq beyond bytes (by omega)]
  simp only [if_pos hsig, HEADER_SIZE_eq, if_neg (show ¬ bytes.length < 512 by omega), hmax2,
    if_false, show (1 : Nat) = SMD_FILE from rfl, if_true, ho]

/-! ## The report of `print_header_info` -/

/-- A buffer whose console field starts with NUL passes `validate_header`. -/
theorem validate_header_of_nul (file : List Nat) (h : 0x110 ≤ file.length)
    (h0 : file[0x100]? = some 0) : validate_header file = some true := by
  rw [validate_header_value file h, fieldBytes_succ file 0x100 15 0 h0, cstring_cons_zero]
  decide

/-- When the inspected image holds a whole header and passes `validate_header`,
`print_header_info` prints a report; its format name is read from the format tag
of the inspected image and its calculated checksum from the field of the struct. -/
theorem print_header_info_report (beyond junk : Nat → Nat) (file_name : String)
    (bytes : List Nat) (file : RomFile)
    (himg : inspect_image beyond junk file_name bytes = some (Except.ok file))
    (hlen : 512 ≤ file.contents.length) (hval : validate_header file.contents = some true) :
    ∃ r, print_header_info beyond junk file_name bytes = some (Except.ok r) ∧
      r.file_format = (if file.format ≠ 0 then "Super Magic Drive" else "Binary") ∧
      r.calculated_checksum = hexBytes file.calculated_checksum := by
  have hread := read_header_eq file.contents hlen
  obtain ⟨hco, hcp⟩ := read_header_shape _ _ hread
  have hpub := get_company_eq _ hco hcp
  rw [print_header_info, himg]
  simp only [hval, hread, hpub]
  exact ⟨_, rfl, rfl, rfl⟩

/-! ## Word sums of sparse images -/

theorem wordSum_eq_zero (contents : List Nat) (h : ∀ i, 512 ≤ i → contents.getD i 0 = 0) :
    ∀ n, wordSum contents n = 0 := by
  intro n
  induction n with
  | zero => rfl
  | succ n ih =>
    rw [wordSum_succ, ih]
    split
    · rename_i hn
      rw [bigEndianWord, h n hn.1, h (n + 1) (by omega)]
    · rfl

theorem wordSum_single (contents : List Nat) (i0 : Nat) (h0 : 512 ≤ i0) (hev : i0 % 2 = 0)
    (h : ∀ i, 512 ≤ i → i ≠ i0 → contents.getD i 0 = 0) :
    ∀ n, wordSum contents n = if i0 < n then 256 * contents.getD i0 0 else 0 := by
  intro n
  induction n with
  | zero => rfl
  | succ n ih =>
    have hword : 512 ≤ n ∧ n % 2 = 0 →
        bigEndianWord contents n = if n = i0 then 256 * contents.getD i0 0 else 0 := by
      intro hw
      rw [bigEndianWord, h (n + 1) (by omega) (by omega)]
      by_cases e : n = i0
      · rw [if_pos e, e]
        rfl
      · rw [if_neg e, h n hw.1 e]
    rw [wordSum_succ, ih]
    by_cases hw : 512 ≤ n ∧ n % 2 = 0
    · rw [if_pos hw, hword hw]
      split_ifs <;> omega
    · rw [if_neg hw]
      split_ifs <;> omega


/-! ## Facts about the sample interleaved images -/

theorem headerOnlySmd_length : headerOnlySmd.length = 512 := by
  simp only [headerOnlySmd, List.length_append, List.length_replicate, List.length_cons,
    List.length_nil]

theorem headerOnlySmd_signature : hasSmdSignature headerOnlySmd :=
  ⟨List.getElem?_append_left (by decide), List.getElem?_append_left (by decide),
    List.getElem?_append_left (by decide), List.getElem?_append_left (by decide)⟩

theorem oneBlockSmd_length : oneBlockSmd.contents.length = 16896 := by
  simp only [oneBlockSmd, List.length_append, List.length_replicate, List.length_cons,
    List.length_nil]

theorem oneBlockSmd_signature : hasSmdSignature oneBlockSmd.contents :=
  ⟨List.getElem?_append_left (by decide), List.getElem?_append_left (by decide),
    List.getElem?_append_left (by decide), List.getElem?_append_left (by decide)⟩

theorem oneBlockSmd_payload_zero (p : Nat) (h1 : 11 ≤ p) (h2 : p < 16896) :
    oneBlockSmd.contents[p]? = some 0 := by
  simp only [oneBlockSmd]
  rw [List.getElem?_append_right (by simp only [List.length_cons, List.length_nil]; omega),
    List.getElem?_eq_getElem (by
      simp only [List.length_replicate, List.length_cons, List.length_nil]; omega),
    List.getElem_replicate]

theorem staleSmd_length : staleSmd.length = 16896 := by
  simp only [staleSmd, List.length_map, List.length_range]

theorem staleSmd_getElem? (p : Nat) (h : p < 16896) : staleSmd[p]? = some (staleSmdByte p) := by
  simp only [staleSmd, List.getElem?_map, List.getElem?_range h, Option.map_some']

theorem staleSmd_signature : hasSmdSignature staleSmd :=
  ⟨staleSmd_getElem? 1 (by decide), staleSmd_getElem? 8 (by decide),
    staleSmd_getElem? 9 (by decide), staleSmd_getElem? 10 (by decide)⟩

theorem staleSmd_getD (p : Nat) (h1 : 512 ≤ p) (h2 : p ≠ 8704) : staleSmd.getD p 0 = 0 := by
  rw [List.getD_eq_getElem?_getD]
  by_cases h : p < 16896
  · rw [staleSmd_getElem? p h, Option.getD_some, staleSmdByte, if_neg (by omega),
      if_neg (by omega), if_neg (by omega), if_neg (by omega), if_neg (by omega), if_neg h2]
  · rw [List.getElem?_eq_none (by rw [staleSmd_length]; omega)]
    rfl

theorem checksumOf_staleSmd : checksumOf staleSmd = 256 := by
  have h8704 : staleSmd.getD 8704 0 = 1 := by
    rw [List.getD_eq_getElem?_getD, staleSmd_getElem? 8704 (by decide)]
    rfl
  rw [checksumOf, staleSmd_length, if_pos (by decide),
    wordSum_single staleSmd 8704 (by decide) (by decide) staleSmd_getD 16896,
    if_pos (by decide), h8704]
  decide

/-- Every byte that `deinterleave_file` places at an offset `p ≥ 512` of the
normalized `staleSmd` is zero. -/
theorem deinterleavedAt_staleSmd (p : Nat) (h1 : 0 < p) (h2 : p < 16384) :
    deinterleavedAt staleSmd p = some 0 := by
  rw [deinterleavedAt]
  split
  · rw [staleSmd_getElem? _ (by omega), staleSmdByte, if_neg (by omega), if_neg (by omega),
      if_neg (by omega), if_neg (by omega), if_neg (by omega), if_neg (by omega)]
  · rw [staleSmd_getElem? _ (by omega), staleSmdByte, if_neg (by omega), if_neg (by omega),
      if_neg (by omega), if_neg (by omega), if_neg (by omega), if_neg (by omega)]

/-! ## The block-count byte -/

/-- For every linear image whose length `n` is a multiple of 16384 with
`16384 ≤ n`, byte 0 of the output of `interleave_file` is the block count
`(n + 512) / 16384` reduced modulo 256, the range of one byte; it is the block
count itself when the image has at most 255 blocks. -/
theorem interleave_file_block_count (junk : Nat → Nat) (file : RomFile) (k : Nat) (hk : 1 ≤ k)
    (hlen : file.length = k * 16384) (hbuf : file.contents.length = file.length) :
    ∃ out, interleave_file junk file = some out ∧ out.length = file.length + 512 ∧
      out.length / 16384 = k ∧ out.contents[0]? = some (out.length / 16384 % 256) ∧
      (k ≤ 255 → out.contents[0]? = some (out.length / 16384)) := by
  obtain ⟨out, ho, hol, -, -, -, -, h0, -⟩ := interleave_file_spec junk file k hk hlen hbuf
  have hq : out.length / 16384 = k := by rw [hol]; omega
  refine ⟨out, ho, hol, hq, ?_, ?_⟩
  · rw [h0, hol]
  · intro hk2
    rw [h0, ← hol, hq, Nat.mod_eq_of_lt (by omega)]

/-! ## Facts about the sample headers -/

set_option maxRecDepth 100000 in
theorem segaHeader_length : 512 ≤ segaHeader.length := by decide

set_option maxRecDepth 100000 in
theorem segaHeaderCopyright_length : 512 ≤ segaHeaderCopyright.length := by decide

set_option maxRecDepth 100000 in
theorem codemastersHeader_length : 512 ≤ codemastersHeader.length := by decide

set_option maxRecDepth 100000 in
/-- The two sample headers with company `"SEGA    "` hold the same company field. -/
theorem segaHeader_company :
    fieldBytes segaHeader 0x110 8 = fieldBytes segaHeaderCopyright 0x110 8 := by decide

/-! ## The result of the signature test as a condition on the console field -/

/-- For every buffer of at least `0x110` bytes, `validate_header` returns true
exactly when the console field, read as a C string, lacks `"SEGA "`
or lacks `" SEGA"`; it returns false when the field holds both. -/
theorem validate_header_true_iff (file : List Nat) (h : 0x110 ≤ file.length) :
    ∃ b, validate_header file = some b ∧
      (b = true ↔ ¬ bytes "SEGA " <:+: cstring (fieldBytes file 0x100 16) ∨
        ¬ bytes " SEGA" <:+: cstring (fieldBytes file 0x100 16)) := by
  refine ⟨_, validate_header_value file h, ?_⟩
  simp

/-! ## Format transcoder: round trips and layout -/

/-- C1: for every linear image `x` whose length is `k * 16384` with `k ≥ 1`,
`interleave_file` followed by `deinterleave_file` is defined and yields an image
with the length of `x`, the bytes of `x` at every offset, and the format tag
`BIN_FILE`.  Neither function inspects the format tag of its argument, so the
statement holds whatever tag `x` carries. -/
theorem deinterleave_interleave_roundtrip (junk1 junk2 : Nat → Nat) (x : RomFile) (k : Nat)
    (hk : 1 ≤ k) (hlen : x.length = k * 16384) (hbuf : x.contents.length = x.length) :
    ∃ y z, interleave_file junk1 x = some y ∧ deinterleave_file junk2 y = some z ∧
      z.length = x.length ∧ z.contents = x.contents ∧
      (∀ p, p < x.length → z.contents[p]? = x.contents[p]?) ∧ z.format = BIN_FILE := by
  obtain ⟨y, hy, hyl, hyc, -, -, -, -, -, -, -, -, -, hyp⟩ :=
    interleave_file_spec junk1 x k hk hlen hbuf
  obtain ⟨z, hz, hzl, hzc, hzf, -, -, hzp⟩ :=
    deinterleave_file_spec junk2 y k hk (by omega) (by omega)
  have hbytes : ∀ p : Nat, z.contents[p]? = x.contents[p]? := by
    intro p
    by_cases hp : p < x.length
    · rw [hzp p (by omega), deinterleavedAt]
      by_cases c : p % 16384 % 2 = 0
      · rw [if_pos c, hyp (512 + p / 16384 * 16384 + p % 16384 / 2 + 8192) (by omega) (by omega),
          interleavedAt, if_neg (show ¬ (512 + p / 16384 * 16384 + p % 16384 / 2 + 8192 - 512) % 16384 < 8192
            by omega)]
        rw [show (512 + p / 16384 * 16384 + p % 16384 / 2 + 8192 - 512) / 16384 * 16384
          + 2 * ((512 + p / 16384 * 16384 + p % 16384 / 2 + 8192 - 512) % 16384 - 8192) = p
          by omega]
      · rw [if_neg c, hyp (512 + p / 16384 * 16384 + p % 16384 / 2) (by omega) (by omega),
          interleavedAt, if_pos (show (512 + p / 16384 * 16384 + p % 16384 / 2 - 512) % 16384 < 8192
            by omega)]
        rw [show (512 + p / 16384 * 16384 + p % 16384 / 2 - 512) / 16384 * 16384
          + 2 * ((512 + p / 16384 * 16384 + p % 16384 / 2 - 512) % 16384) + 1 = p
          by omega]
    · rw [List.getElem?_eq_none (by omega), List.getElem?_eq_none (by omega)]
  exact ⟨y, z, hy, hz, by omega, List.ext_getElem? hbytes, fun p _ => hbytes p, hzf⟩

/-- Witness of C1 on the one-block image of zero bytes. -/
theorem deinterleave_interleave_roundtrip_witness :
    ∃ y z, interleave_file (fun _ => 0) oneBlockBin = some y ∧
      deinterleave_file (fun _ => 0) y = some z ∧
      z.length = oneBlockBin.length ∧ z.contents = oneBlockBin.contents ∧
      (∀ p, p < oneBlockBin.length → z.contents[p]? = oneBlockBin.contents[p]?) ∧
      z.format = BIN_FILE :=
  deinterleave_interleave_roundtrip (fun _ => 0) (fun _ => 0) oneBlockBin 1 (Nat.le_refl 1)
    (by decide) (List.length_replicate 16384 0)

/-- C2: for every interleaved image `y` of length `512 + k * 16384` with `k ≥ 1`
whose bytes at offsets 1, 8, 9, 10 are `0x03, 0xAA, 0xBB, 0x06`,
`deinterleave_file` followed by `interleave_file` is defined and yields an image
of the length of `y` that agrees with `y` at every offset in `[512, length)` and
at offsets 1, 8, 9 and 10. -/
theorem interleave_deinterleave_payload (junk1 junk2 : Nat → Nat) (y : RomFile) (k : Nat)
    (hk : 1 ≤ k) (hlen : y.length = 512 + k * 16384) (hbuf : y.contents.length = y.length)
    (h1 : y.contents[1]? = some 0x03) (h8 : y.contents[8]? = some 0xaa)
    (h9 : y.contents[9]? = some 0xbb) (h10 : y.contents[10]? = some 0x06) :
    ∃ x z, deinterleave_file junk1 y = some x ∧ interleave_file junk2 x = some z ∧
      z.length = y.length ∧ z.contents.length = y.contents.length ∧
      (∀ p, 512 ≤ p → p < y.length → z.contents[p]? = y.contents[p]?) ∧
      z.contents[1]? = y.contents[1]? ∧ z.contents[8]? = y.contents[8]? ∧
      z.contents[9]? = y.contents[9]? ∧ z.contents[10]? = y.contents[10]? := by
  obtain ⟨x, hx, hxl, hxc, -, -, -, hxp⟩ := deinterleave_file_spec junk1 y k hk hlen hbuf
  obtain ⟨z, hz, hzl, hzc, -, -, -, -, z1, z8, z9, z10, -, hzp⟩ :=
    interleave_file_spec junk2 x k hk (by omega) (by omega)
  refine ⟨x, z, hx, hz, by omega, by omega, ?_, by rw [z1, h1], by rw [z8, h8],
    by rw [z9, h9], by rw [z10, h10]⟩
  intro p hp1 hp2
  rw [hzp p hp1 (by omega), interleavedAt]
  by_cases c : (p - 512) % 16384 < 8192
  · rw [if_pos c, hxp ((p - 512) / 16384 * 16384 + 2 * ((p - 512) % 16384) + 1) (by omega),
      deinterleavedAt,
      if_neg (show ¬ ((p - 512) / 16384 * 16384 + 2 * ((p - 512) % 16384) + 1) % 16384 % 2 = 0
        by omega)]
    rw [show 512 + ((p - 512) / 16384 * 16384 + 2 * ((p - 512) % 16384) + 1) / 16384 * 16384
      + ((p - 512) / 16384 * 16384 + 2 * ((p - 512) % 16384) + 1) % 16384 / 2 = p by omega]
  · rw [if_neg c, hxp ((p - 512) / 16384 * 16384 + 2 * ((p - 512) % 16384 - 8192)) (by omega),
      deinterleavedAt,
      if_pos (show ((p - 512) / 16384 * 16384 + 2 * ((p - 512) % 16384 - 8192)) % 16384 % 2 = 0
        by omega)]
    rw [show 512 + ((p - 512) / 16384 * 16384 + 2 * ((p - 512) % 16384 - 8192)) / 16384 * 16384
      + ((p - 512) / 16384 * 16384 + 2 * ((p - 512) % 16384 - 8192)) % 16384 / 2 + 8192 = p
      by omega]

/-- Witness of C2 on the one-block interleaved image. -/
theorem interleave_deinterleave_payload_witness :
    ∃ x z, deinterleave_file (fun _ => 0) oneBlockSmd = some x ∧
      interleave_file (fun _ => 0xff) x = some z ∧
      z.length = oneBlockSmd.length ∧ z.contents.length = oneBlockSmd.contents.length ∧
      (∀ p, 512 ≤ p → p < oneBlockSmd.length → z.contents[p]? = oneBlockSmd.contents[p]?) ∧
      z.contents[1]? = oneBlockSmd.contents[1]? ∧ z.contents[8]? = oneBlockSmd.contents[8]? ∧
      z.contents[9]? = oneBlockSmd.contents[9]? ∧
      z.contents[10]? = oneBlockSmd.contents[10]? :=
  interleave_deinterleave_payload (fun _ => 0) (fun _ => 0xff) oneBlockSmd 1 (Nat.le_refl 1)
    (by decide)
    (by simp only [oneBlockSmd, List.length_append, List.length_replicate, List.length_cons,
      List.length_nil])
    (List.getElem?_append_left (by decide)) (List.getElem?_append_left (by decide))
    (List.getElem?_append_left (by decide)) (List.getElem?_append_left (by decide))

/-- C3: for every linear image of length `n = k * 16384` with `k ≥ 1`,
`interleave_file` is defined and produces an image of length `n + 512` with format
tag `SMD_FILE`, with bytes 1, 8, 9, 10 equal to `0x03, 0xAA, 0xBB, 0x06`, and such
that for every block `b < k` and every `j < 8192` the byte at `512 + b * 16384 + j`
is the source byte at `b * 16384 + 2 * j + 1` and the byte at
`512 + b * 16384 + 8192 + j` is the source byte at `b * 16384 + 2 * j`. -/
theorem interleave_file_layout (junk : Nat → Nat) (file : RomFile) (k : Nat) (hk : 1 ≤ k)
    (hlen : file.length = k * 16384) (hbuf : file.contents.length = file.length) :
    ∃ out, interleave_file junk file = some out ∧
      out.length = file.length + 512 ∧ out.contents.length = file.length + 512 ∧
      out.format = SMD_FILE ∧
      out.contents[1]? = some 0x03 ∧ out.contents[8]? = some 0xaa ∧
      out.contents[9]? = some 0xbb ∧ out.contents[10]? = some 0x06 ∧
      ∀ b j, b < k → j < 8192 →
        (∃ v, out.contents[512 + b * 16384 + j]? = some v ∧
          file.contents[b * 16384 + 2 * j + 1]? = some v) ∧
        (∃ v, out.contents[512 + b * 16384 + 8192 + j]? = some v ∧
          file.contents[b * 16384 + 2 * j]? = some v) := by
  obtain ⟨out, ho, hol, hoc, hof, -, -, -, o1, o8, o9, o10, -, hop⟩ :=
    interleave_file_spec junk file k hk hlen hbuf
  refine ⟨out, ho, hol, hoc, hof, o1, o8, o9, o10, ?_⟩
  intro b j hb hj
  have hbk : b * 16384 + 16384 ≤ k * 16384 := by
    have := Nat.mul_le_mul_right 16384 (Nat.succ_le_of_lt hb)
    omega
  constructor
  · obtain ⟨v, hv⟩ : ∃ v, file.contents[b * 16384 + 2 * j + 1]? = some v :=
      ⟨_, List.getElem?_eq_getElem (by omega)⟩
    refine ⟨v, ?_, hv⟩
    rw [hop _ (by omega) (by omega), interleavedAt,
      if_pos (show (512 + b * 16384 + j - 512) % 16384 < 8192 by omega)]
    rw [show (512 + b * 16384 + j - 512) / 16384 * 16384
      + 2 * ((512 + b * 16384 + j - 512) % 16384) + 1 = b * 16384 + 2 * j + 1 by omega]
    exact hv
  · obtain ⟨v, hv⟩ : ∃ v, file.contents[b * 16384 + 2 * j]? = some v :=
      ⟨_, List.getElem?_eq_getElem (by omega)⟩
    refine ⟨v, ?_, hv⟩
    rw [hop _ (by omega) (by omega), interleavedAt,
      if_neg (show ¬ (512 + b * 16384 + 8192 + j - 512) % 16384 < 8192 by omega)]
    rw [show (512 + b * 16384 + 8192 + j - 512) / 16384 * 16384
      + 2 * ((512 + b * 16384 + 8192 + j - 512) % 16384 - 8192) = b * 16384 + 2 * j by omega]
    exact hv

/-- Witness of C3 on the one-block image of zero bytes. -/
theorem interleave_file_layout_witness :
    ∃ out, interleave_file (fun _ => 0) oneBlockBin = some out ∧
      out.length = oneBlockBin.length + 512 ∧
      out.contents.length = oneBlockBin.length + 512 ∧ out.format = SMD_FILE ∧
      out.contents[1]? = some 0x03 ∧ out.contents[8]? = some 0xaa ∧
      out.contents[9]? = some 0xbb ∧ out.contents[10]? = some 0x06 ∧
      ∀ b j, b < 1 → j < 8192 →
        (∃ v, out.contents[512 + b * 16384 + j]? = some v ∧
          oneBlockBin.contents[b * 16384 + 2 * j + 1]? = some v) ∧
        (∃ v, out.contents[512 + b * 16384 + 8192 + j]? = some v ∧
          oneBlockBin.contents[b * 16384 + 2 * j]? = some v) :=
  interleave_file_layout (fun _ => 0) oneBlockBin 1 (Nat.le_refl 1) (by decide)
    (List.length_replicate 16384 0)

/-- C4: for every interleaved image of length `512 + k * 16384` with `k ≥ 1`,
`deinterleave_file` is defined and produces an image of length `k * 16384` with
format tag `BIN_FILE` such that for every block `b < k` and every `j < 8192` the
byte at `b * 16384 + 2 * j + 1` is the input byte at `512 + b * 16384 + j` and the
byte at `b * 16384 + 2 * j` is the input byte at `512 + b * 16384 + 8192 + j`; the
output does not depend on the first 512 bytes of the input: any image `file2` of
the same length that agrees with the input from offset 512 on gives the same
bytes, whatever the fresh memory holds. -/
theorem deinterleave_file_layout (junk junk2 : Nat → Nat) (file file2 : RomFile) (k : Nat)
    (hk : 1 ≤ k) (hlen : file.length = 512 + k * 16384)
    (hbuf : file.contents.length = file.length)
    (hlen2 : file2.length = file.length) (hbuf2 : file2.contents.length = file2.length)
    (hsame : ∀ p, 512 ≤ p → file2.contents[p]? = file.contents[p]?) :
    ∃ out, deinterleave_file junk file = some out ∧
      out.length = k * 16384 ∧ out.contents.length = k * 16384 ∧ out.format = BIN_FILE ∧
      (∀ b j, b < k → j < 8192 →
        (∃ v, out.contents[b * 16384 + 2 * j + 1]? = some v ∧
          file.contents[512 + b * 16384 + j]? = some v) ∧
        (∃ v, out.contents[b * 16384 + 2 * j]? = some v ∧
          file.contents[512 + b * 16384 + 8192 + j]? = some v)) ∧
      ∃ out2, deinterleave_file junk2 file2 = some out2 ∧ out2.contents = out.contents := by
  obtain ⟨out, ho, hol, hoc, hof, -, -, hop⟩ := deinterleave_file_spec junk file k hk hlen hbuf
  obtain ⟨out2, ho2, -, hoc2, -, -, -, hop2⟩ :=
    deinterleave_file_spec junk2 file2 k hk (by omega) hbuf2
  refine ⟨out, ho, by omega, by omega, hof, ?_, out2, ho2, ?_⟩
  · intro b j hb hj
    have hbk : b * 16384 + 16384 ≤ k * 16384 := by
      have := Nat.mul_le_mul_right 16384 (Nat.succ_le_of_lt hb)
      omega
    constructor
    · obtain ⟨v, hv⟩ : ∃ v, file.contents[512 + b * 16384 + j]? = some v :=
        ⟨_, List.getElem?_eq_getElem (by omega)⟩
      refine ⟨v, ?_, hv⟩
      rw [hop _ (by omega), deinterleavedAt,
        if_neg (show ¬ (b * 16384 + 2 * j + 1) % 16384 % 2 = 0 by omega)]
      rw [show 512 + (b * 16384 + 2 * j + 1) / 16384 * 16384
        + (b * 16384 + 2 * j + 1) % 16384 / 2 = 512 + b * 16384 + j by omega]
      exact hv
    · obtain ⟨v, hv⟩ : ∃ v, file.contents[512 + b * 16384 + 8192 + j]? = some v :=
        ⟨_, List.getElem?_eq_getElem (by omega)⟩
      refine ⟨v, ?_, hv⟩
      rw [hop _ (by omega), deinterleavedAt,
        if_pos (show (b * 16384 + 2 * j) % 16384 % 2 = 0 by omega)]
      rw [show 512 + (b * 16384 + 2 * j) / 16384 * 16384
        + (b * 16384 + 2 * j) % 16384 / 2 + 8192 = 512 + b * 16384 + 8192 + j by omega]
      exact hv
  · apply List.ext_getElem?
    intro p
    by_cases hp : p < file.length - 512
    · rw [hop p hp, hop2 p (by omega), deinterleavedAt, deinterleavedAt]
      by_cases c : p % 16384 % 2 = 0
      · rw [if_pos c, if_pos c]
        exact hsame _ (by omega)
      · rw [if_neg c, if_neg c]
        exact hsame _ (by omega)
    · rw [List.getElem?_eq_none (by omega), List.getElem?_eq_none (by omega)]

/-- Witness of C4: the one-block interleaved image and the same image with every
header byte replaced. -/
theorem deinterleave_file_layout_witness :
    ∃ out, deinterleave_file (fun _ => 0) oneBlockSmd = some out ∧
      out.length = 1 * 16384 ∧ out.contents.length = 1 * 16384 ∧ out.format = BIN_FILE ∧
      (∀ b j, b < 1 → j < 8192 →
        (∃ v, out.contents[b * 16384 + 2 * j + 1]? = some v ∧
          oneBlockSmd.contents[512 + b * 16384 + j]? = some v) ∧
        (∃ v, out.contents[b * 16384 + 2 * j]? = some v ∧
          oneBlockSmd.contents[512 + b * 16384 + 8192 + j]? = some v)) ∧
      ∃ out2, deinterleave_file (fun _ => 0xff) oneBlockSmdOtherHeader = some out2 ∧
        out2.contents = out.contents :=
  deinterleave_file_layout (fun _ => 0) (fun _ => 0xff) oneBlockSmd oneBlockSmdOtherHeader 1
    (Nat.le_refl 1) (by decide)
    (by simp only [oneBlockSmd, List.length_append, List.length_replicate, List.length_cons,
      List.length_nil])
    (by decide)
    (by simp only [oneBlockSmdOtherHeader, List.length_append, List.length_replicate])
    oneBlockSmd_payload

/-! ## Checksum calculator -/

/-- C5, as stated, fails: on the 516-byte image whose payload is the two words
`0xffff`, `0xffff`, the length is even, `calculate_checksum` returns
`0x1fffe = 131070`, and the sum of the words modulo 65536 is `65534`. -/
theorem calculate_checksum_not_mod_65536 :
    twoWordImage.contents.length = twoWordImage.length ∧ twoWordImage.length % 2 = 0 ∧
      calculate_checksum twoWordImage = some 131070 ∧
      wordSum twoWordImage.contents twoWordImage.length % 65536 = 65534 ∧
      calculate_checksum twoWordImage
        ≠ some (wordSum twoWordImage.contents twoWordImage.length % 65536) := by
  have hbuf : twoWordImage.contents.length = twoWordImage.length := by
    simp only [twoWordImage, List.length_append, List.length_replicate, List.length_cons,
      List.length_nil]
  have hsum := wordSum_twoWordImage
  have hval : calculate_checksum twoWordImage = some 131070 := by
    rw [calculate_checksum_even twoWordImage hbuf (by decide), hsum]
    rfl
  refine ⟨hbuf, by decide, hval, by rw [hsum], ?_⟩
  rw [hval, hsum]
  decide

/-- C5, amended: for every image of even total length, `calculate_checksum`
returns the sum of all big-endian 16-bit words `256 * contents[i] + contents[i + 1]`
at even offsets `i` in `[512, length)`, reduced modulo `2 ^ 32` (the width of
`unsigned int`); the low 16 bits of the returned value are that sum modulo 65536. -/
theorem calculate_checksum_word_sum (file : RomFile)
    (hbuf : file.contents.length = file.length) (heven : file.length % 2 = 0) :
    ∃ c, calculate_checksum file = some c ∧
      c = wordSum file.contents file.length % 2 ^ 32 ∧
      c % 65536 = wordSum file.contents file.length % 65536 := by
  refine ⟨_, calculate_checksum_even file hbuf heven, rfl, ?_⟩
  omega

/-- Witness of the amended C5 on the two-word image. -/
theorem calculate_checksum_word_sum_witness :
    ∃ c, calculate_checksum twoWordImage = some c ∧
      c = wordSum twoWordImage.contents twoWordImage.length % 2 ^ 32 ∧
      c % 65536 = wordSum twoWordImage.contents twoWordImage.length % 65536 :=
  calculate_checksum_word_sum twoWordImage
    (by simp only [twoWordImage, List.length_append, List.length_replicate, List.length_cons,
      List.length_nil])
    (by decide)

/-- C6: for every image whose total length is odd, `calculate_checksum` returns 0,
whatever the image holds. -/
theorem calculate_checksum_odd (file : RomFile) (hodd : file.length % 2 = 1) :
    calculate_checksum file = some 0 := by
  rw [calculate_checksum, if_pos (by omega)]

/-- Witness of C6 on a 513-byte image of nonzero bytes. -/
theorem calculate_checksum_odd_witness : calculate_checksum oddImage = some 0 :=
  calculate_checksum_odd oddImage (by decide)

/-! ## Header parser -/

set_option maxRecDepth 100000 in
/-- C7, on the code: `validate_header` accepts a 512-byte buffer of spaces, whose
console field holds neither `"SEGA "` nor `" SEGA"`, and rejects the buffer whose
console field is `" SEGA MEGA DRIVE"`, which holds both.  The two null-pointer
tests `== 0` make the function return true exactly when one of the two
substrings is missing. -/
theorem validate_header_inverted :
    (validate_header blankHeader = some true ∧
      ¬ bytes "SEGA " <:+: fieldBytes blankHeader CONSOLE_OFFSET CONSOLE_LENGTH ∧
      ¬ bytes " SEGA" <:+: fieldBytes blankHeader CONSOLE_OFFSET CONSOLE_LENGTH) ∧
    (validate_header shiftedSegaHeader = some false ∧
      bytes "SEGA " <:+: fieldBytes shiftedSegaHeader CONSOLE_OFFSET CONSOLE_LENGTH ∧
      bytes " SEGA" <:+: fieldBytes shiftedSegaHeader CONSOLE_OFFSET CONSOLE_LENGTH) := by
  decide

set_option maxRecDepth 100000 in
/-- C8, as stated, fails: on a 512-byte buffer whose console field starts with
`'S'`, NUL, `'G'`, `'A'`, the console value `read_header` returns is `'S'` followed
by NUL bytes, while the buffer holds `'S'`, NUL, `'G'`, `'A'` and twelve spaces. -/
theorem read_header_stops_at_nul :
    512 ≤ nulHeader.length ∧
    (read_header nulHeader).map (fun rom => rom.console.take 16)
      = some [0x53, 0, 0, 0, 0, 0, 0, 0, 0, 0, 0, 0, 0, 0, 0, 0] ∧
    fieldBytes nulHeader 0x100 16
      = [0x53, 0, 0x47, 0x41, 0x20, 0x20, 0x20, 0x20, 0x20, 0x20, 0x20, 0x20, 0x20, 0x20, 0x20,
        0x20] := by
  decide

/-- C8, amended: for every buffer of at least 512 bytes, `read_header` is defined
and each string field it returns holds the bytes of the buffer at
`[offset, offset + length)` up to, and without, the first zero byte, followed by
zero bytes; a field of the buffer that holds no zero byte is returned exactly, and
in particular a buffer with `"SEGA MEGA DRIVE "` at offset `0x100` yields that
16-byte console value. -/
theorem read_header_fields (file : List Nat) (h : 512 ≤ file.length) :
    ∃ rom, read_header file = some rom ∧
      (∀ f ∈ headerFields,
        f.1 rom = zeroPadded (cstring (fieldBytes file f.2.1 f.2.2)) f.2.2 ++ [0] ∧
        (0 ∉ fieldBytes file f.2.1 f.2.2 → (f.1 rom).take f.2.2 = fieldBytes file f.2.1 f.2.2)) ∧
      (fieldBytes file 0x100 16 = bytes "SEGA MEGA DRIVE " →
        rom.console.take 16 = bytes "SEGA MEGA DRIVE ") := by
  have key : ∀ (off n : Nat), off + n ≤ file.length → 0 ∉ fieldBytes file off n →
      (zeroPadded (cstring (fieldBytes file off n)) n ++ [0]).take n = fieldBytes file off n := by
    intro off n hb h0
    rw [cstring_of_not_mem _ h0, zeroPadded_of_length _ _ (length_fieldBytes file off n hb)]
    exact List.take_left' (length_fieldBytes file off n hb)
  refine ⟨_, read_header_eq file h, ?_, ?_⟩
  · intro f hf
    simp only [headerFields, List.mem_cons, List.mem_singleton, List.not_mem_nil, or_false]
      at hf
    rcases hf with e | e | e | e | e | e | e | e | e <;> subst e <;>
      exact ⟨rfl, key _ _ (by simp only []; omega)⟩
  · intro hs
    have h0 : 0 ∉ fieldBytes file 0x100 16 := by
      rw [hs]
      decide
    have hk := key 0x100 16 (by omega) h0
    rw [← hs]
    exact hk

/-- Witness of the amended C8 on a 512-byte buffer of spaces. -/
theorem read_header_fields_witness :
    ∃ rom, read_header blankHeader = some rom ∧
      (∀ f ∈ headerFields,
        f.1 rom = zeroPadded (cstring (fieldBytes blankHeader f.2.1 f.2.2)) f.2.2 ++ [0] ∧
        (0 ∉ fieldBytes blankHeader f.2.1 f.2.2 →
          (f.1 rom).take f.2.2 = fieldBytes blankHeader f.2.1 f.2.2)) ∧
      (fieldBytes blankHeader 0x100 16 = bytes "SEGA MEGA DRIVE " →
        rom.console.take 16 = bytes "SEGA MEGA DRIVE ") :=
  read_header_fields blankHeader (by rw [blankHeader, List.length_replicate])

/-- C9: for every buffer of at least 512 bytes, the `stored_checksum` that
`read_header` returns equals `256 * buffer[0x18E] + buffer[0x18F]`, hence lies in
`[0, 65535]`, and it does not depend on any byte outside offsets `0x18E` and
`0x18F`: any buffer `file2` of at least 512 bytes with the same two bytes gives the
same value. -/
theorem read_header_stored_checksum (file file2 : List Nat) (h : 512 ≤ file.length)
    (hbytes : ∀ b ∈ file, b < 256) (h2 : 512 ≤ file2.length)
    (hhi : file2[0x18e]? = file[0x18e]?) (hlo : file2[0x18f]? = file[0x18f]?) :
    ∃ rom hi lo, read_header file = some rom ∧
      file[0x18e]? = some hi ∧ file[0x18f]? = some lo ∧
      rom.stored_checksum = 256 * hi + lo ∧ rom.stored_checksum ≤ 65535 ∧
      ∃ rom2, read_header file2 = some rom2 ∧ rom2.stored_checksum = rom.stored_checksum := by
  have e1 : file[0x18e]? = some (file.getD 0x18e 0) := by
    rw [List.getD_eq_getElem?_getD, List.getElem?_eq_getElem (by omega)]
    rfl
  have e2 : file[0x18f]? = some (file.getD 0x18f 0) := by
    rw [List.getD_eq_getElem?_getD, List.getElem?_eq_getElem (by omega)]
    rfl
  have b1 : file.getD 0x18e 0 < 256 := hbytes _ (List.getElem?_mem e1)
  have b2 : file.getD 0x18f 0 < 256 := hbytes _ (List.getElem?_mem e2)
  have hval := shift_or_eq _ _ b1 b2
  refine ⟨_, file.getD 0x18e 0, file.getD 0x18f 0, read_header_eq file h, e1, e2, hval, ?_,
    _, read_header_eq file2 h2, ?_⟩
  · show ((file.getD 0x18e 0 % 256) <<< 8) ||| (file.getD 0x18f 0 % 256) ≤ 65535
    rw [hval]
    omega
  · show ((file2.getD 0x18e 0 % 256) <<< 8) ||| (file2.getD 0x18f 0 % 256)
      = ((file.getD 0x18e 0 % 256) <<< 8) ||| (file.getD 0x18f 0 % 256)
    rw [List.getD_eq_getElem?_getD, List.getD_eq_getElem?_getD, hhi, hlo,
      ← List.getD_eq_getElem?_getD, ← List.getD_eq_getElem?_getD]

set_option maxRecDepth 100000 in
/-- Witness of C9: a 512-byte buffer of spaces and the buffer whose console field
is `" SEGA MEGA DRIVE"`, which hold the same bytes at `0x18E` and `0x18F`. -/
theorem read_header_stored_checksum_witness :
    ∃ rom hi lo, read_header blankHeader = some rom ∧
      blankHeader[0x18e]? = some hi ∧ blankHeader[0x18f]? = some lo ∧
      rom.stored_checksum = 256 * hi + lo ∧ rom.stored_checksum ≤ 65535 ∧
      ∃ rom2, read_header shiftedSegaHeader = some rom2 ∧
        rom2.stored_checksum = rom.stored_checksum :=
  read_header_stored_checksum blankHeader shiftedSegaHeader
    (by rw [blankHeader, List.length_replicate])
    (fun b hb => by rw [List.eq_of_mem_replicate hb]; decide)
    (by decide) (by decide) (by decide)

/-! ## Publisher resolver -/

set_option maxRecDepth 100000 in
/-- C10: for every header record `rom` that `read_header` extracted from an image,
`get_company` returns the name attached to the earliest rule, in declaration
order, whose pattern is a substring of the byte-wise ASCII-lowercased 8-byte
company field, and `"Unknown"` when no rule matches; in particular the company
field `"SEGA    "` gives `"Sega"` and `"50      "` gives `"Electronic Arts"`. -/
theorem get_company_first_match (file : List Nat) (rom : RomHeader)
    (h : read_header file = some rom) :
    get_company rom = some (firstMatch companyRules ((rom.company.take 8).map asciiLower)) ∧
    ((∀ r ∈ companyRules, ¬ bytes r.1 <:+: (rom.company.take 8).map asciiLower) →
      get_company rom = some "Unknown") ∧
    (rom.company = bytes "SEGA    " ++ [0] → get_company rom = some "Sega") ∧
    (rom.company = bytes "50      " ++ [0] → get_company rom = some "Electronic Arts") := by
  obtain ⟨hco, hcp⟩ := read_header_shape file rom h
  have hmain := get_company_eq rom hco hcp
  refine ⟨hmain, ?_, ?_, ?_⟩
  · intro hno
    rw [hmain, firstMatch, List.find?_eq_none.mpr]
    intro r hr
    simpa using hno r hr
  · intro e
    rw [hmain, e]
    decide
  · intro e
    rw [hmain, e]
    decide

set_option maxRecDepth 100000 in
/-- Witness of C10 on the record of a 512-byte header whose company field is
`"SEGA    "`. -/
theorem get_company_first_match_witness :
    get_company segaRecord
      = some (firstMatch companyRules ((segaRecord.company.take 8).map asciiLower)) ∧
    ((∀ r ∈ companyRules, ¬ bytes r.1 <:+: (segaRecord.company.take 8).map asciiLower) →
      get_company segaRecord = some "Unknown") ∧
    (segaRecord.company = bytes "SEGA    " ++ [0] → get_company segaRecord = some "Sega") ∧
    (segaRecord.company = bytes "50      " ++ [0] →
      get_company segaRecord = some "Electronic Arts") :=
  get_company_first_match segaHeader segaRecord (by decide)

set_option maxRecDepth 100000 in
/-- C11: for every 3-digit publisher code of the table (100, 101, 112, 113, 119,
120, 125, 130, 132, 144, 151, 161, 239), a record extracted by `read_header`
whose company field is that code followed by five spaces resolves to the
publisher of the 3-digit code and not to the publisher of the 2-digit code that
is its prefix; both codes are rules of the table.  In particular `"120     "`
gives `"Codemasters"`, not `"Capcom"`. -/
theorem get_company_three_digit (file : List Nat) (rom : RomHeader)
    (h : read_header file = some rom) :
    (∀ c ∈ threeDigitCodes, rom.company = bytes c.1 ++ bytes "     " ++ [0] →
      get_company rom = some c.2.1 ∧ get_company rom ≠ some c.2.2.2 ∧
      (c.1, c.2.1) ∈ companyRules ∧ (c.2.2.1, c.2.2.2) ∈ companyRules ∧
      bytes c.2.2.1 <+: bytes c.1) ∧
    (rom.company = bytes "120     " ++ [0] →
      get_company rom = some "Codemasters" ∧ get_company rom ≠ some "Capcom") := by
  obtain ⟨hco, hcp⟩ := read_header_shape file rom h
  have hmain := get_company_eq rom hco hcp
  constructor
  · intro c hc e
    rw [hmain, e]
    simp only [threeDigitCodes, List.mem_cons, List.mem_singleton, List.not_mem_nil,
      or_false] at hc
    rcases hc with r | r | r | r | r | r | r | r | r | r | r | r | r <;> subst r <;> decide
  · intro e
    rw [hmain, e]
    decide

/-- Witness of C11 on the record of a 512-byte header whose company field is
`"120     "`. -/
theorem get_company_three_digit_witness :
    ∃ rom, read_header codemastersHeader = some rom ∧
      (∀ c ∈ threeDigitCodes, rom.company = bytes c.1 ++ bytes "     " ++ [0] →
        get_company rom = some c.2.1 ∧ get_company rom ≠ some c.2.2.2 ∧
        (c.1, c.2.1) ∈ companyRules ∧ (c.2.2.1, c.2.2.2) ∈ companyRules ∧
        bytes c.2.2.1 <+: bytes c.1) ∧
      (rom.company = bytes "120     " ++ [0] →
        get_company rom = some "Codemasters" ∧ get_company rom ≠ some "Capcom") :=
  ⟨_, read_header_eq codemastersHeader codemastersHeader_length,
    get_company_three_digit codemastersHeader _
      (read_header_eq codemastersHeader codemastersHeader_length)⟩

/-- C20: `get_company` does not depend on the copyright field: two header records
extracted by `read_header` that have the same company field get the same name,
whatever their copyright fields hold, and the name is never
`"Hi-Tech Entertainment"`. -/
theorem get_company_ignores_copyright (file1 file2 : List Nat) (rom1 rom2 : RomHeader)
    (h1 : read_header file1 = some rom1) (h2 : read_header file2 = some rom2)
    (hsame : rom1.company = rom2.company) :
    get_company rom1 = get_company rom2 ∧
      get_company rom1 ≠ some "Hi-Tech Entertainment" := by
  obtain ⟨hco1, hcp1⟩ := read_header_shape file1 rom1 h1
  obtain ⟨hco2, hcp2⟩ := read_header_shape file2 rom2 h2
  rw [get_company_eq rom1 hco1 hcp1, get_company_eq rom2 hco2 hcp2, hsame]
  refine ⟨rfl, fun e => ?_⟩
  exact firstMatch_ne_hitech _ (by rw [List.length_map, List.length_take]; omega)
    (Option.some.inj e)

/-- Witness of C20: two 512-byte headers with company `"SEGA    "`, one with a
blank copyright field and one with copyright `"(C)SEGA "`. -/
theorem get_company_ignores_copyright_witness :
    ∃ rom1 rom2, read_header segaHeader = some rom1 ∧
      read_header segaHeaderCopyright = some rom2 ∧ rom1.company = rom2.company ∧
      get_company rom1 = get_company rom2 ∧
      get_company rom1 ≠ some "Hi-Tech Entertainment" :=
  ⟨_, _, read_header_eq segaHeader segaHeader_length,
    read_header_eq segaHeaderCopyright segaHeaderCopyright_length,
    congrArg (fun s => zeroPadded (cstring s) 8 ++ [0]) segaHeader_company,
    get_company_ignores_copyright segaHeader segaHeaderCopyright _ _
      (read_header_eq segaHeader segaHeader_length)
      (read_header_eq segaHeaderCopyright segaHeaderCopyright_length)
      (congrArg (fun s => zeroPadded (cstring s) 8 ++ [0]) segaHeader_company)⟩

/-! ## Header parser: reads and the signature test -/

set_option maxRecDepth 100000 in
/-- C18: for every buffer of at least 512 bytes, `validate_header` and
`read_header` are defined: no byte they read lies outside the buffer.  Both
return on the first `0x1f3` bytes of the buffer what they return on the buffer,
so no offset above `0x1F2` is read; offset `0x1F2` itself is read on a buffer of
spaces, where the call is undefined once that byte is cut off. -/
theorem header_reads_in_range (file : List Nat) (h : 512 ≤ file.length) :
    (∃ b, validate_header file = some b) ∧ (∃ rom, read_header file = some rom) ∧
      validate_header (file.take 0x1f3) = validate_header file ∧
      read_header (file.take 0x1f3) = read_header file ∧
      read_header (blankHeader.take 0x1f2) = none := by
  have hl : (file.take 0x1f3).length = 0x1f3 := by
    rw [List.length_take]; omega
  refine ⟨⟨_, validate_header_value file (by omega)⟩, ⟨_, read_header_eq_of_le file (by omega)⟩,
    ?_, ?_, by decide⟩
  · rw [validate_header_value file (by omega),
      validate_header_value (file.take 0x1f3) (by omega),
      fieldBytes_take file 0x1f3 0x100 16 (by omega)]
  · rw [read_header_eq_of_le file (by omega), read_header_eq_of_le (file.take 0x1f3) (by omega),
      fieldBytes_take file 0x1f3 0x100 16 (by omega),
      fieldBytes_take file 0x1f3 0x110 8 (by omega),
      fieldBytes_take file 0x1f3 0x118 8 (by omega),
      fieldBytes_take file 0x1f3 0x120 48 (by omega),
      fieldBytes_take file 0x1f3 0x150 48 (by omega),
      fieldBytes_take file 0x1f3 0x180 2 (by omega),
      fieldBytes_take file 0x1f3 0x183 11 (by omega),
      fieldBytes_take file 0x1f3 0x190 16 (by omega),
      fieldBytes_take file 0x1f3 0x1f0 3 (by omega),
      getD_take file 0x1f3 0x18e (by omega), getD_take file 0x1f3 0x18f (by omega)]

set_option maxRecDepth 100000 in
/-- Witness of C18 on a 512-byte buffer of spaces. -/
theorem header_reads_in_range_witness :
    (∃ b, validate_header blankHeader = some b) ∧
      (∃ rom, read_header blankHeader = some rom) ∧
      validate_header (blankHeader.take 0x1f3) = validate_header blankHeader ∧
      read_header (blankHeader.take 0x1f3) = read_header blankHeader ∧
      read_header (blankHeader.take 0x1f2) = none :=
  header_reads_in_range blankHeader (by rw [blankHeader, List.length_replicate])

set_option maxRecDepth 100000 in
/-- C19, on the code: on the 512-byte buffer whose console field is
`" SEGA GENESIS   "`, which holds both `"SEGA "` and `" SEGA"`, `validate_header`
returns false, so the check does not always pass. -/
theorem validate_header_rejects :
    0x110 ≤ paddedGenesisHeader.length ∧ validate_header paddedGenesisHeader = some false := by
  decide

/-! ## Format transcoder: block count and partial blocks -/

/-- C14, on the code: on the 16896-byte linear image, which passes the size check
of convert mode, `interleave_file` is undefined whatever the fresh memory holds:
the outer loop runs a second time for `i = 16384 < 16896` and its first store goes
to offset `512 + 16384 + 8192 = 25088` of the 17408-byte converted buffer. -/
theorem interleave_file_overruns :
    HEADER_SIZE + BLOCK_SIZE ≤ headerPlusBlockBin.length ∧
      headerPlusBlockBin.length ≤ MAX_FILE_SIZE ∧
      headerPlusBlockBin.contents.length = headerPlusBlockBin.length ∧
      ∀ junk, interleave_file junk headerPlusBlockBin = none :=
  ⟨by decide, by decide, List.length_replicate 16896 0,
    fun junk => interleave_file_partial_block junk headerPlusBlockBin
      (List.length_replicate 16896 0) (by decide) (by decide)⟩

/-- C12, on the code: on a linear image of 256 blocks (4 MiB, below
`MAX_FILE_SIZE`) the output has 4194816 bytes, which is 256 blocks, and its
byte 0 is 0: the block count is stored in one byte and no size check keeps it
below 256. -/
theorem interleave_file_block_count_wraps :
    fourMiBBin.length = 256 * 16384 ∧ fourMiBBin.length ≤ MAX_FILE_SIZE ∧
      ∃ out, interleave_file (fun _ => 0) fourMiBBin = some out ∧
        out.length / 16384 = 256 ∧ out.contents[0]? = some 0 := by
  obtain ⟨out, ho, hol, -, -, -, -, h0, -⟩ :=
    interleave_file_spec (fun _ => 0) fourMiBBin 256 (by decide) (by decide)
      (List.length_replicate 4194304 0)
  refine ⟨by decide, by decide, out, ho, ?_, ?_⟩
  · rw [hol]; decide
  · rw [h0]; decide

/-! ## Conversion orchestrator -/

/-- C13: size gating depends only on the file length `L`, whatever the file
holds and whatever lies after the buffer.  Inspect mode (`print_header_info`)
reports too-small exactly when `L < 512` and otherwise too-large exactly when
`L > 5 * 1024 * 1024`; convert mode (`convert_file`) reports too-small exactly when
`L < 512 + 16384` and otherwise too-large exactly when `L > 5 * 1024 * 1024`.  In
particular `L = 511` fails inspect as too small, `L = 16896` gets neither size
report in convert mode, and `L = 5 * 1024 * 1024 + 1` fails as too large in both
modes. -/
theorem size_gating (beyond junk : Nat → Nat) (file_name : String) (bytes : List Nat) :
    (print_header_info beyond junk file_name bytes = some (Except.error ErrorKind.too_small)
      ↔ bytes.length < 512) ∧
    (512 ≤ bytes.length →
      (print_header_info beyond junk file_name bytes = some (Except.error ErrorKind.too_large)
        ↔ 5 * 1024 * 1024 < bytes.length)) ∧
    (convert_file beyond junk file_name bytes = some (Except.error ErrorKind.too_small)
      ↔ bytes.length < 512 + 16384) ∧
    (512 + 16384 ≤ bytes.length →
      (convert_file beyond junk file_name bytes = some (Except.error ErrorKind.too_large)
        ↔ 5 * 1024 * 1024 < bytes.length)) ∧
    (bytes.length = 511 →
      print_header_info beyond junk file_name bytes
        = some (Except.error ErrorKind.too_small)) ∧
    (bytes.length = 16896 →
      convert_file beyond junk file_name bytes ≠ some (Except.error ErrorKind.too_small) ∧
      convert_file beyond junk file_name bytes ≠ some (Except.error ErrorKind.too_large)) ∧
    (bytes.length = 5 * 1024 * 1024 + 1 →
      print_header_info beyond junk file_name bytes
        = some (Except.error ErrorKind.too_large) ∧
      convert_file beyond junk file_name bytes = some (Except.error ErrorKind.too_large)) := by
  obtain ⟨p1, p2⟩ := print_header_info_gating beyond junk file_name bytes
  obtain ⟨c1, c2⟩ := convert_file_gating beyond junk file_name bytes
  refine ⟨p1, p2, c1, c2, fun h => p1.mpr (by omega), fun h => ⟨?_, ?_⟩,
    fun h => ⟨(p2 (by omega)).mpr (by omega), (c2 (by omega)).mpr (by omega)⟩⟩
  · intro e
    have := c1.mp e
    omega
  · intro e
    have := (c2 (by omega)).mp e
    omega

/-- Witness of C13 on the empty file. -/
theorem size_gating_witness :
    print_header_info (fun _ => 0xff) (fun _ => 0) "empty.bin" []
        = some (Except.error ErrorKind.too_small) ∧
      convert_file (fun _ => 0xff) (fun _ => 0) "empty.bin" []
        = some (Except.error ErrorKind.too_small) :=
  ⟨(size_gating (fun _ => 0xff) (fun _ => 0) "empty.bin" []).1.mpr (by decide),
    (size_gating (fun _ => 0xff) (fun _ => 0) "empty.bin" []).2.2.1.mpr (by decide)⟩

/-- C16, as stated, fails: the 512-byte input that holds the smd signature passes
the size check of inspect mode and reaches `validate_header` unchanged, with
format tag `SMD_FILE` and its 512 bytes. -/
theorem inspect_image_keeps_short_smd :
    hasSmdSignature headerOnlySmd ∧ 512 ≤ headerOnlySmd.length ∧
      headerOnlySmd.length ≤ MAX_FILE_SIZE ∧
      ∃ file,
        inspect_image (fun _ => 0) (fun _ => 0) "rom.smd" headerOnlySmd = some (Except.ok file) ∧
        file.format = SMD_FILE ∧ file.length = 512 ∧ file.contents = headerOnlySmd := by
  refine ⟨headerOnlySmd_signature, by rw [headerOnlySmd_length], ?_, _,
    inspect_image_smd_short _ _ _ _ headerOnlySmd_signature (by rw [headerOnlySmd_length])
      (by rw [headerOnlySmd_length]; decide), rfl, headerOnlySmd_length, rfl⟩
  rw [headerOnlySmd_length]
  decide

/-- C16, amended: in inspect mode, for every input that holds the smd signature
and passes the size check, when the length is `512 + k * 16384` with `k ≥ 1` the
image passed to `validate_header` and `read_header` is the deinterleaved linear
image (format tag `BIN_FILE`, length the input length minus 512), and when the
length is below `512 + 16384` it is the input itself, with format tag `SMD_FILE`. -/
theorem inspect_image_normalizes (beyond junk : Nat → Nat) (file_name : String)
    (bytes : List Nat)
    (hsig : hasSmdSignature bytes) (h1 : 512 ≤ bytes.length)
    (hmax : bytes.length ≤ 5 * 1024 * 1024) :
    (∀ k, 1 ≤ k → bytes.length = 512 + k * 16384 →
      ∃ out, inspect_image beyond junk file_name bytes = some (Except.ok out) ∧
        out.format = BIN_FILE ∧ out.length = bytes.length - 512 ∧
        out.contents.length = bytes.length - 512 ∧
        ∀ p, p < bytes.length - 512 → out.contents[p]? = deinterleavedAt bytes p) ∧
    (bytes.length < 512 + 16384 →
      ∃ file, inspect_image beyond junk file_name bytes = some (Except.ok file) ∧
        file.format = SMD_FILE ∧ file.length = bytes.length ∧ file.contents = bytes) := by
  constructor
  · intro k hk hlen
    obtain ⟨out, ho, -, hol, hoc, hof, -, hop⟩ :=
      inspect_image_smd_blocks beyond junk file_name bytes k hsig hk hlen hmax
    exact ⟨out, ho, hof, hol, hoc, hop⟩
  · intro h2
    exact ⟨_, inspect_image_smd_short beyond junk file_name bytes hsig h1 h2, rfl, rfl, rfl⟩

/-- Witness of the amended C16 on the one-block interleaved image. -/
theorem inspect_image_normalizes_witness :
    (∀ k, 1 ≤ k → oneBlockSmd.contents.length = 512 + k * 16384 →
      ∃ out, inspect_image (fun _ => 0) (fun _ => 0) "rom.smd" oneBlockSmd.contents = some (Except.ok out) ∧
        out.format = BIN_FILE ∧ out.length = oneBlockSmd.contents.length - 512 ∧
        out.contents.length = oneBlockSmd.contents.length - 512 ∧
        ∀ p, p < oneBlockSmd.contents.length - 512 →
          out.contents[p]? = deinterleavedAt oneBlockSmd.contents p) ∧
    (oneBlockSmd.contents.length < 512 + 16384 →
      ∃ file, inspect_image (fun _ => 0) (fun _ => 0) "rom.smd" oneBlockSmd.contents
          = some (Except.ok file) ∧
        file.format = SMD_FILE ∧ file.length = oneBlockSmd.contents.length ∧
        file.contents = oneBlockSmd.contents) :=
  inspect_image_normalizes (fun _ => 0) (fun _ => 0) "rom.smd" oneBlockSmd.contents
    oneBlockSmd_signature
    (by rw [oneBlockSmd_length]; decide) (by rw [oneBlockSmd_length]; decide)

/-- C17, on the code: the 16896-byte input `oneBlockSmd` holds the smd signature,
is accepted by `print_header_info`, and the report names the format `"Binary"`:
the format name is read from the struct after `deinterleave_file` has set its
format tag to `BIN_FILE`. -/
theorem print_header_info_format_name_lost :
    hasSmdSignature oneBlockSmd.contents ∧
      ∀ beyond junk, ∃ r,
        print_header_info beyond junk "rom.smd" oneBlockSmd.contents = some (Except.ok r) ∧
        r.file_format = "Binary" := by
  refine ⟨oneBlockSmd_signature, fun beyond junk => ?_⟩
  obtain ⟨out, himg, -, -, hoc, hof, -, hop⟩ :=
    inspect_image_smd_blocks beyond junk "rom.smd" oneBlockSmd.contents 1 oneBlockSmd_signature
      (Nat.le_refl 1) (by rw [oneBlockSmd_length]) (by rw [oneBlockSmd_length]; decide)
  rw [oneBlockSmd_length] at hoc hop
  have h0 : out.contents[0x100]? = some 0 := by
    rw [hop 0x100 (by decide), deinterleavedAt, if_pos (by decide)]
    exact oneBlockSmd_payload_zero _ (by decide) (by decide)
  obtain ⟨r, hr, hfmt, -⟩ :=
    print_header_info_report beyond junk "rom.smd" oneBlockSmd.contents out
    himg (by rw [hoc]; decide) (validate_header_of_nul _ (by rw [hoc]; decide) h0)
  refine ⟨r, hr, ?_⟩
  rw [hfmt, hof]
  rfl

/-- C15, on the code: for the 16896-byte interleaved input `staleSmd`, the struct
loaded by `open_file` and passed through `deinterleave_file` holds the
calculated checksum 256, the word sum of the interleaved bytes, while
`calculate_checksum` of the image it then holds is 0; `print_header_info` reports
the bytes `01 00`. -/
theorem calculated_checksum_stale :
    ∀ beyond junk, ∃ loaded normalized r,
      open_file beyond "rom.smd" staleSmd = some loaded ∧
      deinterleave_file junk loaded = some normalized ∧
      normalized.calculated_checksum = 256 ∧ calculate_checksum normalized = some 0 ∧
      print_header_info beyond junk "rom.smd" staleSmd = some (Except.ok r) ∧
      r.calculated_checksum = (1, 0) := by
  intro beyond junk
  obtain ⟨out, himg, hde, hol, hoc, -, hock, hop⟩ :=
    inspect_image_smd_blocks beyond junk "rom.smd" staleSmd 1 staleSmd_signature
      (Nat.le_refl 1) (by rw [staleSmd_length]) (by rw [staleSmd_length]; decide)
  rw [staleSmd_length] at hol hoc hop
  rw [checksumOf_staleSmd] at hock hde
  have hopen : open_file beyond "rom.smd" staleSmd = some
      { contents := staleSmd, name := "rom.smd", length := staleSmd.length, format := SMD_FILE,
        calculated_checksum := 256 } := by
    rw [open_file_eq, smd_signature_eq _ _ (by rw [staleSmd_length]; decide),
      if_pos staleSmd_signature,
      checksumOf_staleSmd]
    rfl
  have hzero : ∀ i, 512 ≤ i → out.contents.getD i 0 = 0 := by
    intro i hi
    rw [List.getD_eq_getElem?_getD]
    by_cases h : i < 16384
    · rw [hop i h, deinterleavedAt_staleSmd i (by omega) h]
      rfl
    · rw [List.getElem?_eq_none (by omega)]
      rfl
  have hsum : calculate_checksum out = some 0 := by
    rw [calculate_checksum_eq out (by omega), checksumOf]
    split
    · rw [wordSum_eq_zero out.contents hzero, Nat.zero_mod]
    · rfl
  have h0 : out.contents[0x100]? = some 0 := by
    rw [hop 0x100 (by decide)]
    exact deinterleavedAt_staleSmd 0x100 (by decide) (by decide)
  obtain ⟨r, hr, -, hck⟩ := print_header_info_report beyond junk "rom.smd" staleSmd out
    himg (by rw [hoc]; decide) (validate_header_of_nul _ (by rw [hoc]; decide) h0)
  refine ⟨_, out, r, hopen, hde, hock, hsum, hr, ?_⟩
  rw [hck, hock]
  decide

end Megarom
